import Mathlib

/-!
Shallow-water `HyperbolicSystem` of ryujin: state algebra and flux kernel.

Shallow embedding of `source/shallow_water/hyperbolic_system.h`.

* The template parameter `Number` is a scalar that is read as an element of a
  linearly ordered field `K` (exact arithmetic; `K = ℚ` makes every definition
  below evaluable).  Division is the total division of the field; it agrees
  with the quotient of the source wherever the denominator is not zero, which
  for `inverse_water_depth` is the case whenever `h_tiny_` is positive or the
  depth is not zero.  The definitions named `..._checked` return `none` where
  the source divides `0` by `0` or takes the square root of a negative number.
* `dealii::Tensor<1, problem_dim, Number>` with `problem_dim = 1 + dim` is a
  function `Fin (D + 1) → K`; component `0` is the water depth, components
  `1 .. D` are the momentum.
* The class members read by the inline functions are the fields of the
  structure `HyperbolicSystem`.
* The library function `std::sqrt` is a parameter `sqrt : K → K` of every
  function that reaches `speed_of_sound`; the theorems that need it assume
  that `sqrt` is nonnegative and squares back to a nonnegative argument, and
  are evaluated over `ℝ` with `Real.sqrt`.
-/

namespace ryujin

/-- Run time options and precomputed scalar quantities of the class
`HyperbolicSystem` (its private data members, in declaration order). -/
structure HyperbolicSystem (K : Type) where
  gravity_ : K
  reference_water_depth_ : K
  dry_state_tolerance_ : K
  mannings_ : K
  h_tiny_ : K
  gravity_inverse_ : K
  g_mannings_sqd_ : K
  reference_speed_ : K
  h_kinetic_energy_tiny_ : K
  tiny_entropy_number_ : K

/-- Storage type of a conserved state, `state_type<dim, Number>`: a rank one
tensor with `problem_dimension<dim> = 1 + dim` entries. -/
abbrev state_type (D : Nat) (K : Type) : Type := Fin (D + 1) → K

/-- Storage type of the flux, `flux_type<dim, Number>`: `1 + dim` rows, each a
rank one tensor with `dim` entries. -/
abbrev flux_type (D : Nat) (K : Type) : Type := Fin (D + 1) → Fin D → K

/-- Storage type of the flux precomputations, `prec_type<dim, Number>`: the
tuple of a state and the bathymetry value `Z`. -/
abbrev prec_type (D : Nat) (K : Type) : Type := state_type D K × K

section Definitions

variable {K : Type} [LinearOrderedField K] {D : Nat}

/-- The scalar `std::max(a, b)`: returns `b` when `a < b` and `a` otherwise. -/
def std_max (a b : K) : K := if a < b then b else a

/-- Source `water_depth`: returns `U[0]`. -/
def water_depth (U : state_type D K) : K := U 0

/-- The local `denom` of `inverse_water_depth`:
`h * h + h_max * h_max` with `h_max = std::max(h, Number(h_tiny_))`. -/
def inverse_water_depth_denom (hs : HyperbolicSystem K) (U : state_type D K) : K :=
  let h := U 0
  let h_max := std_max h hs.h_tiny_
  h * h + h_max * h_max

/-- Source `inverse_water_depth`: returns `ScalarNumber(2.) * h / denom`. -/
def inverse_water_depth (hs : HyperbolicSystem K) (U : state_type D K) : K :=
  let h := U 0
  let denom := inverse_water_depth_denom hs U
  2 * h / denom

/-- Source `momentum`: `result[i] = U[1 + i]` for `i < dim`. -/
def momentum (U : state_type D K) : Fin D → K := fun i => U i.succ

/-- Source `pressure`: `ScalarNumber(0.5 * gravity_) * h_sqd` with
`h_sqd = U[0] * U[0]` (the literal `0.5` is the exact value one half). -/
def pressure (hs : HyperbolicSystem K) (U : state_type D K) : K :=
  let h_sqd := U 0 * U 0
  (1 / 2 * hs.gravity_) * h_sqd

/-- Source `star_state`: with `Z_max = std::max(Z_left, Z_right)` and
`H_star = std::max(Number(0.), h + Z_left - Z_max)` returns
`U_left * H_star * inverse_water_depth(U_left)`; the tensor-by-scalar products
act on every component, left to right. -/
def star_state (hs : HyperbolicSystem K) (U_left : state_type D K)
    (Z_left Z_right : K) : state_type D K :=
  let Z_max := std_max Z_left Z_right
  let h := water_depth U_left
  let H_star := std_max 0 (h + Z_left - Z_max)
  fun k => U_left k * H_star * inverse_water_depth hs U_left

/-- Source `f`: row `0` is the momentum `m`; row `1 + i` is
`m * (m[i] * h_inverse)` whose entry `i` is then increased by the pressure. -/
def f (hs : HyperbolicSystem K) (U : state_type D K) : flux_type D K :=
  let h_inverse := inverse_water_depth hs U
  let m := momentum U
  let p := pressure hs U
  Fin.cases m (fun i j =>
    if j = i then m j * (m i * h_inverse) + p else m j * (m i * h_inverse))

/-- Modelled from the spec: the helper `add` for two flux tensors is declared
in `simd.h`, which is not among the sources; the low-order and the centered
flux are described as the sum of two raw fluxes, so `add` is the entry by entry
sum. -/
def add (a b : flux_type D K) : flux_type D K := fun r c => a r c + b r c

/-- Source `equilibrated_states`: for `prec_i = (U_i, Z_i)` and
`prec_j = (U_j, Z_j)` returns the array
`{star_state(U_i, Z_i, Z_j), star_state(U_j, Z_j, Z_i)}`. -/
def equilibrated_states (hs : HyperbolicSystem K) (prec_i prec_j : prec_type D K) :
    state_type D K × state_type D K :=
  let (U_i, Z_i) := prec_i
  let (U_j, Z_j) := prec_j
  let U_star_ij := star_state hs U_i Z_i Z_j
  let U_star_ji := star_state hs U_j Z_j Z_i
  (U_star_ij, U_star_ji)

/-- Source `flux`: the raw flux `f` of both equilibrated states, combined with
`add`. -/
def flux (hs : HyperbolicSystem K) (prec_i prec_j : prec_type D K) : flux_type D K :=
  let (U_star_ij, U_star_ji) := equilibrated_states hs prec_i prec_j
  let f_i := f hs U_star_ij
  let f_j := f hs U_star_ji
  add f_i f_j

/-- Source `high_order_flux`: the raw flux `f` of the two states of the
precomputed tuples, combined with `add`; the bathymetry values `Z_i`, `Z_j` are
bound and not used. -/
def high_order_flux (hs : HyperbolicSystem K) (prec_i prec_j : prec_type D K) :
    flux_type D K :=
  let (U_i, _Z_i) := prec_i
  let (U_j, _Z_j) := prec_j
  let f_i := f hs U_i
  let f_j := f hs U_j
  add f_i f_j

/-- The contraction `a * b` of two rank one tensors of deal.II: the sum of the
products of the components. -/
def dot (a b : Fin D → K) : K := ∑ i, a i * b i

/-- The member `norm_square()` of a rank one tensor of deal.II: the sum of the
squares of the components. -/
def norm_square (v : Fin D → K) : K := ∑ i, v i * v i

/-- Source `kinetic_energy`: `ScalarNumber(0.5) * h * vel.norm_square()` with
`vel = momentum(U) * inverse_water_depth(U)`. -/
def kinetic_energy (hs : HyperbolicSystem K) (U : state_type D K) : K :=
  let h := water_depth U
  let vel : Fin D → K := fun i => momentum U i * inverse_water_depth hs U
  1 / 2 * h * norm_square vel

/-- Source `speed_of_sound`: `std::sqrt(ScalarNumber(gravity_) * U[0])`.  The
library function `std::sqrt` is the parameter `sqrt`. -/
def speed_of_sound (sqrt : K → K) (hs : HyperbolicSystem K) (U : state_type D K) : K :=
  sqrt (hs.gravity_ * U 0)

/-- Source `mathematical_entropy`: `p + k_e`, the pressure plus the kinetic
energy. -/
def mathematical_entropy (hs : HyperbolicSystem K) (U : state_type D K) : K :=
  let p := pressure hs U
  let k_e := kinetic_energy hs U
  p + k_e

/-- The scalar `dealii::compare_and_apply_mask<greater_than>(left, right,
true_value, false_value)`: `true_value` when `left > right`, else
`false_value`. -/
def compare_and_apply_mask_gt (left right true_value false_value : K) : K :=
  if left > right then true_value else false_value

/-- Source `is_admissible` for a scalar `Number`: with
`test = compare_and_apply_mask<gt>(h_new, T(0.), T(0.), T(-1.))` returns
`test == Number(0.)`.  The function reads no member of the class. -/
def is_admissible (U : state_type D K) : Bool :=
  let h_new := water_depth U
  let test := compare_and_apply_mask_gt h_new 0 0 (-1)
  decide (test = 0)

/-- A state over a vectorized `Number` with `W` lanes
(`dealii::VectorizedArray<T, W>`): every component holds one value per lane. -/
abbrev vectorized_state_type (D W : Nat) (K : Type) : Type := Fin (D + 1) → Fin W → K

/-- Source `is_admissible` for a vectorized `Number`: `compare_and_apply_mask`
selects `0` or `-1` in every lane separately, and `test == Number(0.)` on a
`VectorizedArray` is true when all lanes of `test` are equal to `0`. -/
def is_admissible_vectorized {W : Nat} (U : vectorized_state_type D W K) : Bool :=
  let h_new := U 0
  let test : Fin W → K := fun l => compare_and_apply_mask_gt (h_new l) 0 0 (-1)
  decide (∀ l, test l = 0)

/-- Source `ryujin::pow(x, b)` for a scalar: calls `std::pow(x, b)`.  The
kernel calls it with the literal exponent `2`; the exponent is a natural
number here and the power is exact. -/
def pow (x : K) (b : Nat) : K := x ^ b

/-- Source `prescribe_riemann_characteristic<component>`.  The template
argument `component` is an ordinary argument; the `static_assert` of the source
admits only `1` and `2`. -/
def prescribe_riemann_characteristic (sqrt : K → K) (hs : HyperbolicSystem K)
    (component : Nat) (U U_bar : state_type D K) (normal : Fin D → K) : state_type D K :=
  let m := momentum U
  let a := speed_of_sound sqrt hs U
  let vn := dot m normal * inverse_water_depth hs U
  let m_bar := momentum U_bar
  let a_bar := speed_of_sound sqrt hs U_bar
  let vn_bar := dot m_bar normal * inverse_water_depth hs U_bar
  let R_1 := if component = 1 then vn_bar - 2 * a_bar else vn - 2 * a
  let R_2 := if component = 2 then vn_bar + 2 * a_bar else vn + 2 * a
  let vperp : Fin D → K := fun d => m d * inverse_water_depth hs U - vn * normal d
  let vn_new := 1 / 2 * (R_1 + R_2)
  let h_new := hs.gravity_inverse_ * pow ((R_2 - R_1) / 4) 2
  Fin.cases h_new (fun d => h_new * (vn_new * normal d + vperp d))

/-- The enumerators of `Boundary` that `apply_boundary_conditions` compares the
boundary id with.  The enumeration is declared in `discretization.h`, which is
not among the sources, so the four ids are a parameter. -/
structure Boundary where
  dirichlet : Nat
  slip : Nat
  no_slip : Nat
  dynamic : Nat

/-- Source `apply_boundary_conditions`.  The argument `U` is passed by value
and overwritten; in the dynamic branch the three `if` blocks run one after the
other on the current `U`, while `vn` and `a` are computed once from the input
state.  The callback `get_dirichlet_data` is a function of no argument. -/
def apply_boundary_conditions (sqrt : K → K) (hs : HyperbolicSystem K) (B : Boundary)
    (id : Nat) (U : state_type D K) (normal : Fin D → K)
    (get_dirichlet_data : Unit → state_type D K) : state_type D K :=
  if id = B.dirichlet then
    get_dirichlet_data ()
  else if id = B.slip then
    let m := momentum U
    let m_new : Fin D → K := fun k => m k - 1 * dot m normal * normal k
    Fin.cases (U 0) m_new
  else if id = B.no_slip then
    Fin.cases (U 0) (fun _ => 0)
  else if id = B.dynamic then
    let m := momentum U
    let h_inverse := inverse_water_depth hs U
    let a := speed_of_sound sqrt hs U
    let vn := dot m normal * h_inverse
    let U_1 := if vn < -a then get_dirichlet_data () else U
    let U_2 :=
      if vn ≥ -a ∧ vn ≤ 0 then
        prescribe_riemann_characteristic sqrt hs 2 (get_dirichlet_data ()) U_1 normal
      else U_1
    let U_3 :=
      if vn > 0 ∧ vn ≤ a then
        prescribe_riemann_characteristic sqrt hs 1 U_2 (get_dirichlet_data ()) normal
      else U_2
    U_3
  else
    U

/-- Source `mathematical_entropy_derivative`: with
`vel = momentum(U) * inverse_water_depth(U)`, component `0` is
`ScalarNumber(gravity_) * h - ScalarNumber(0.5) * vel.norm_square()` and
component `1 + i` is `vel[i]`. -/
def mathematical_entropy_derivative (hs : HyperbolicSystem K) (U : state_type D K) :
    state_type D K :=
  let h := U 0
  let vel : Fin D → K := fun i => momentum U i * inverse_water_depth hs U
  Fin.cases (hs.gravity_ * h - 1 / 2 * norm_square vel) (fun i => vel i)

/-- Source `expand_state<dim>`: the result tensor starts with all entries zero
(the default constructor of a deal.II tensor), then `result[0] = state[0]` and
`result[i] = state[i]` for `1 ≤ i < dim2 + 1`.  The constraint `dim >= dim2` of
the `enable_if` is the argument `_hdim`.  The function reads no member of the
class. -/
def expand_state {D2 : Nat} (D : Nat) (_hdim : D2 ≤ D) (state : state_type D2 K) :
    state_type D K :=
  fun k => if hk : k.val < D2 + 1 then state ⟨k.val, hk⟩ else 0

/-- Source `from_primitive_state`: a copy of the argument in which every
component `i` with `1 ≤ i < problem_dim` is multiplied by `h =
primitive_state[0]` (`state[i] *= h`).  The function reads no member of the
class. -/
def from_primitive_state (primitive_state : state_type D K) : state_type D K :=
  let h := primitive_state 0
  Fin.cases (primitive_state 0) (fun i => primitive_state i.succ * h)

/-- Source `to_primitive_state`: a copy of the argument in which every
component `i` with `1 ≤ i < problem_dim` is multiplied by
`h_inverse = inverse_water_depth(state)` (`primitive_state[i] *= h_inverse`). -/
def to_primitive_state (hs : HyperbolicSystem K) (state : state_type D K) :
    state_type D K :=
  let h_inverse := inverse_water_depth hs state
  Fin.cases (state 0) (fun i => state i.succ * h_inverse)

/-- The quotient `ScalarNumber(2.) * h / denom` of `inverse_water_depth` with
the division by zero made explicit.  The denominator `h * h + h_max * h_max`
is zero only when `h` is zero, so a zero denominator means that the source
divides `0` by `0`, which is not a number: the result is then `none`. -/
def inverse_water_depth_checked (hs : HyperbolicSystem K) (U : state_type D K) :
    Option K :=
  let h := U 0
  let denom := inverse_water_depth_denom hs U
  if denom = 0 then none else some (2 * h / denom)

/-- Source `star_state` on top of `inverse_water_depth_checked`: when the
inverse depth is not a number, no component of the product
`U_left * H_star * inverse_water_depth(U_left)` is a number. -/
def star_state_checked (hs : HyperbolicSystem K) (U_left : state_type D K)
    (Z_left Z_right : K) : Option (state_type D K) :=
  let Z_max := std_max Z_left Z_right
  let h := water_depth U_left
  let H_star := std_max 0 (h + Z_left - Z_max)
  (inverse_water_depth_checked hs U_left).map
    (fun h_inverse => fun k => U_left k * H_star * h_inverse)

/-- Source `speed_of_sound` with the domain of `std::sqrt` made explicit: for
a negative argument `gravity_ * U[0]` the square root is not a number and the
result is `none`. -/
def speed_of_sound_checked (sqrt : K → K) (hs : HyperbolicSystem K)
    (U : state_type D K) : Option K :=
  if hs.gravity_ * U 0 < 0 then none else some (sqrt (hs.gravity_ * U 0))

/-- The four regime tests of the dynamic branch of `apply_boundary_conditions`
as the code evaluates them, in the order `vn < -a`, `vn >= -a && vn <= 0.`,
`vn > 0. && vn <= a`, `vn > a` (the last one is the case in which no block
runs).  A comparison with an operand that is not a number is false. -/
def dynamic_regime_tests (sqrt : K → K) (hs : HyperbolicSystem K) (U : state_type D K)
    (normal : Fin D → K) : List Bool :=
  match inverse_water_depth_checked hs U, speed_of_sound_checked sqrt hs U with
  | some h_inverse, some a =>
    let vn := dot (momentum U) normal * h_inverse
    [decide (vn < -a), decide (vn ≥ -a ∧ vn ≤ 0), decide (vn > 0 ∧ vn ≤ a), decide (vn > a)]
  | _, _ => [false, false, false, false]

end Definitions

/-! ## Concrete data used to evaluate the definitions -/

/-- A configuration over `ℚ`: gravity `9.81`, reference depth `1`, dry state
tolerance and `h_tiny` equal to `1/100`, no friction. -/
def hsQ : HyperbolicSystem ℚ where
  gravity_ := 981 / 100
  reference_water_depth_ := 1
  dry_state_tolerance_ := 1 / 100
  mannings_ := 0
  h_tiny_ := 1 / 100
  gravity_inverse_ := 100 / 981
  g_mannings_sqd_ := 0
  reference_speed_ := 1
  h_kinetic_energy_tiny_ := 1 / 100
  tiny_entropy_number_ := 1 / 100

/-- The two dimensional state `(h, m) = (2, (1, 0))`. -/
def uQ : state_type 2 ℚ := ![2, 1, 0]

/-- A two dimensional state of depth `1/200`, inside the dry band of `hsQ`,
with momentum `(1, 0)`. -/
def uDry : state_type 2 ℚ := ![1 / 200, 1, 0]

/-- A two dimensional state with zero depth and zero momentum. -/
def uZero : state_type 2 ℚ := ![0, 0, 0]

/-- Lake at rest, left node: depth `2`, no momentum. -/
def uLakeI : state_type 2 ℚ := ![2, 0, 0]

/-- Lake at rest, right node: depth `1`, no momentum. -/
def uLakeJ : state_type 2 ℚ := ![1, 0, 0]

/-- The configuration `hsQ` read in an arbitrary field: gravity `9.81`,
`gravity_inverse = 100/981`, `h_tiny = 1/100`. -/
def hsEx (K : Type) [Field K] : HyperbolicSystem K where
  gravity_ := 981 / 100
  reference_water_depth_ := 1
  dry_state_tolerance_ := 1 / 100
  mannings_ := 0
  h_tiny_ := 1 / 100
  gravity_inverse_ := 100 / 981
  g_mannings_sqd_ := 0
  reference_speed_ := 1
  h_kinetic_energy_tiny_ := 1 / 100
  tiny_entropy_number_ := 1 / 100

/-- The one dimensional state of depth `100/981` and velocity `v`; for gravity
`9.81` its speed of sound is `1`. -/
def uFlow (K : Type) [Field K] (v : K) : state_type 1 K := ![100 / 981, 100 / 981 * v]

/-- The unit normal of a one dimensional boundary point. -/
def nOne (K : Type) [Field K] : Fin 1 → K := ![1]

/-- The result of `prescribe_riemann_characteristic<2>` for the interior state
`uFlow v`, the prescribed state `uFlow w` and the normal `nOne`. -/
def vPrescribed (K : Type) [LinearOrderedField K] (sqrt : K → K) (v w : K) :
    state_type 1 K :=
  prescribe_riemann_characteristic sqrt (hsEx K) 2 (uFlow K v) (uFlow K w) (nOne K)

/-- Four pairwise distinct boundary ids. -/
def boundaryEx : Boundary where
  dirichlet := 5
  slip := 2
  no_slip := 3
  dynamic := 4

/-- A batch of four lanes of two dimensional states: the depths are
`1, 2, 0, 3`, so exactly the third lane is not positive. -/
def uBatch : vectorized_state_type 2 4 ℚ := ![![1, 2, 0, 3], ![0, 0, 0, 0], ![0, 0, 0, 0]]

/-- The configuration `hsEx` with the dry state tolerance and `h_tiny` set to
`0`. -/
def hsNoTol (K : Type) [Field K] : HyperbolicSystem K where
  gravity_ := 981 / 100
  reference_water_depth_ := 1
  dry_state_tolerance_ := 0
  mannings_ := 0
  h_tiny_ := 0
  gravity_inverse_ := 100 / 981
  g_mannings_sqd_ := 0
  reference_speed_ := 1
  h_kinetic_energy_tiny_ := 0
  tiny_entropy_number_ := 0

/-- A one dimensional state with the negative depth `-1` and momentum `1`. -/
def uNegative (K : Type) [Field K] : state_type 1 K := ![-1, 1]

/-- A one dimensional state with depth `0` and momentum `1`. -/
def uDryBed (K : Type) [Field K] : state_type 1 K := ![0, 1]

/-! ## Auxiliary lemmas -/

section Lemmas

variable {K : Type} [LinearOrderedField K] {D : Nat}

theorem std_max_eq_max (a b : K) : std_max a b = max a b := by
  unfold std_max
  split_ifs with hab
  · exact (max_eq_right hab.le).symm
  · exact (max_eq_left (not_lt.1 hab)).symm

theorem std_max_zero_nonneg (a : K) : 0 ≤ std_max 0 a := by
  rw [std_max_eq_max]
  exact le_max_left 0 a

theorem inverse_water_depth_denom_eq (hs : HyperbolicSystem K) (U : state_type D K) :
    inverse_water_depth_denom hs U = U 0 ^ 2 + max (U 0) hs.h_tiny_ ^ 2 := by
  simp only [inverse_water_depth_denom, std_max_eq_max]
  ring

theorem inverse_water_depth_eq (hs : HyperbolicSystem K) (U : state_type D K) :
    inverse_water_depth hs U = 2 * U 0 / (U 0 ^ 2 + max (U 0) hs.h_tiny_ ^ 2) := by
  simp only [inverse_water_depth, inverse_water_depth_denom_eq]

theorem inverse_water_depth_denom_nonneg (hs : HyperbolicSystem K) (U : state_type D K) :
    0 ≤ inverse_water_depth_denom hs U := by
  rw [inverse_water_depth_denom_eq]
  positivity

/-- Away from the dry band the regularised inverse is the inverse. -/
theorem inverse_water_depth_eq_inv (hs : HyperbolicSystem K) (U : state_type D K)
    (hpos : 0 < U 0) (hle : hs.h_tiny_ ≤ U 0) :
    inverse_water_depth hs U = (U 0)⁻¹ := by
  have hne : U 0 ≠ 0 := ne_of_gt hpos
  simp only [inverse_water_depth, inverse_water_depth_denom_eq, max_eq_left hle]
  field_simp
  ring

theorem inverse_water_depth_nonneg (hs : HyperbolicSystem K) (U : state_type D K)
    (hpos : 0 ≤ U 0) : 0 ≤ inverse_water_depth hs U := by
  unfold inverse_water_depth
  exact div_nonneg (mul_nonneg zero_le_two hpos) (inverse_water_depth_denom_nonneg hs U)

/-- At or above a positive `h_tiny_` the star state is the input scaled by
`H_star / h`. -/
theorem star_state_apply_of_le (hs : HyperbolicSystem K) (U : state_type D K)
    (Z_left Z_right : K) (htiny : 0 < hs.h_tiny_) (hU : hs.h_tiny_ ≤ water_depth U)
    (k : Fin (D + 1)) :
    star_state hs U Z_left Z_right k =
      max 0 (water_depth U + Z_left - max Z_left Z_right) / water_depth U * U k := by
  have hpos : 0 < U 0 := lt_of_lt_of_le htiny hU
  simp only [star_state, std_max_eq_max, inverse_water_depth_eq_inv hs U hpos hU,
    water_depth]
  rw [div_eq_mul_inv]
  ring

theorem star_state_water_depth_of_le (hs : HyperbolicSystem K) (U : state_type D K)
    (Z_left Z_right : K) (htiny : 0 < hs.h_tiny_) (hU : hs.h_tiny_ ≤ water_depth U) :
    water_depth (star_state hs U Z_left Z_right) =
      max 0 (water_depth U + Z_left - max Z_left Z_right) := by
  have hpos : 0 < water_depth U := lt_of_lt_of_le htiny hU
  have hk := star_state_apply_of_le hs U Z_left Z_right htiny hU 0
  have h0 : U 0 = water_depth U := rfl
  rw [h0] at hk
  rw [show water_depth (star_state hs U Z_left Z_right) = star_state hs U Z_left Z_right 0
    from rfl, hk]
  exact div_mul_cancel₀ _ (ne_of_gt hpos)

theorem f_succ_apply (hs : HyperbolicSystem K) (U : state_type D K) (i j : Fin D) :
    f hs U i.succ j =
      if j = i then
        momentum U j * (momentum U i * inverse_water_depth hs U) + pressure hs U
      else momentum U j * (momentum U i * inverse_water_depth hs U) := rfl

theorem compare_and_apply_mask_gt_eq_zero_iff (h : K) :
    compare_and_apply_mask_gt h 0 0 (-1) = 0 ↔ 0 < h := by
  unfold compare_and_apply_mask_gt
  split_ifs with hpos
  · exact ⟨fun _ => hpos, fun _ => rfl⟩
  · exact ⟨fun hneg => absurd hneg (by norm_num), fun hlt => absurd hlt hpos⟩

theorem is_admissible_eq_true_iff (U : state_type D K) :
    is_admissible U = true ↔ 0 < U 0 := by
  simp only [is_admissible, decide_eq_true_eq, water_depth]
  exact compare_and_apply_mask_gt_eq_zero_iff (U 0)

/-- A nonnegative function that squares back to its nonnegative argument takes
the square of a nonnegative number to that number. -/
theorem sqrt_sq_of_nonneg (sqrt : K → K) (hsqrt0 : ∀ x, 0 ≤ sqrt x)
    (hsqrt : ∀ x, 0 ≤ x → sqrt x * sqrt x = x) (y : K) (hy : 0 ≤ y) :
    sqrt (y ^ 2) = y := by
  have hsq : sqrt (y ^ 2) ^ 2 = y ^ 2 := by
    rw [sq (sqrt (y ^ 2))]
    exact hsqrt (y ^ 2) (sq_nonneg y)
  exact (pow_left_inj₀ (hsqrt0 (y ^ 2)) hy two_ne_zero).1 hsq

theorem dot_scaled (c α w β : K) (m n : Fin D → K) :
    dot (fun d => c * (α * n d + (m d * w - β * n d))) n =
      c * (α * dot n n + (dot m n * w - β * dot n n)) := by
  simp only [dot, Finset.mul_sum, Finset.sum_mul, ← Finset.sum_add_distrib,
    ← Finset.sum_sub_distrib]
  exact Finset.sum_congr rfl (fun i _ => by ring)

/-- The state returned by `prescribe_riemann_characteristic`, with the two
selected invariants named. -/
theorem prescribe_riemann_characteristic_apply (sqrt : K → K) (hs : HyperbolicSystem K)
    (component : Nat) (U U_bar : state_type D K) (n : Fin D → K) :
    let vn := dot (momentum U) n * inverse_water_depth hs U
    let R1 := if component = 1 then
        dot (momentum U_bar) n * inverse_water_depth hs U_bar - 2 * speed_of_sound sqrt hs U_bar
      else vn - 2 * speed_of_sound sqrt hs U
    let R2 := if component = 2 then
        dot (momentum U_bar) n * inverse_water_depth hs U_bar + 2 * speed_of_sound sqrt hs U_bar
      else vn + 2 * speed_of_sound sqrt hs U
    let h_new := hs.gravity_inverse_ * ((R2 - R1) / 4) ^ 2
    prescribe_riemann_characteristic sqrt hs component U U_bar n 0 = h_new ∧
      momentum (prescribe_riemann_characteristic sqrt hs component U U_bar n) =
        fun d => h_new * (1 / 2 * (R1 + R2) * n d +
          (momentum U d * inverse_water_depth hs U - vn * n d)) := by
  intro vn R1 R2 h_new
  exact ⟨rfl, rfl⟩

/-- Re-extraction of the invariants from the result `V` of
`prescribe_riemann_characteristic`: if the depth of `V` is at least
`h_tiny > 0`, the normal velocity of `V` is `(R1 + R2) / 2` and its speed of
sound is `|R2 - R1| / 4`, for the selected invariants `R1`, `R2`. -/
theorem prescribe_riemann_characteristic_reextract (sqrt : K → K) (hs : HyperbolicSystem K)
    (component : Nat) (U U_bar : state_type D K) (n : Fin D → K)
    (hg : 0 < hs.gravity_) (hginv : hs.gravity_inverse_ = 1 / hs.gravity_)
    (htiny : 0 < hs.h_tiny_) (hn : dot n n = 1)
    (hsqrt0 : ∀ x, 0 ≤ sqrt x) (hsqrt : ∀ x, 0 ≤ x → sqrt x * sqrt x = x) :
    let vn := dot (momentum U) n * inverse_water_depth hs U
    let R1 := if component = 1 then
        dot (momentum U_bar) n * inverse_water_depth hs U_bar - 2 * speed_of_sound sqrt hs U_bar
      else vn - 2 * speed_of_sound sqrt hs U
    let R2 := if component = 2 then
        dot (momentum U_bar) n * inverse_water_depth hs U_bar + 2 * speed_of_sound sqrt hs U_bar
      else vn + 2 * speed_of_sound sqrt hs U
    hs.h_tiny_ ≤ water_depth (prescribe_riemann_characteristic sqrt hs component U U_bar n) →
    dot (momentum (prescribe_riemann_characteristic sqrt hs component U U_bar n)) n *
        inverse_water_depth hs (prescribe_riemann_characteristic sqrt hs component U U_bar n) =
        (R1 + R2) / 2 ∧
      speed_of_sound sqrt hs (prescribe_riemann_characteristic sqrt hs component U U_bar n) =
        |R2 - R1| / 4 := by
  intro vn R1 R2 hV
  have h0 : prescribe_riemann_characteristic sqrt hs component U U_bar n 0 =
      hs.gravity_inverse_ * ((R2 - R1) / 4) ^ 2 := rfl
  have hm : momentum (prescribe_riemann_characteristic sqrt hs component U U_bar n) =
      fun d => hs.gravity_inverse_ * ((R2 - R1) / 4) ^ 2 * (1 / 2 * (R1 + R2) * n d +
        (momentum U d * inverse_water_depth hs U - vn * n d)) := rfl
  have hvn : vn = dot (momentum U) n * inverse_water_depth hs U := rfl
  clear_value R1 R2 vn
  have hpos : 0 < prescribe_riemann_characteristic sqrt hs component U U_bar n 0 :=
    lt_of_lt_of_le htiny hV
  have hinv := inverse_water_depth_eq_inv hs _ hpos hV
  have hgne : hs.gravity_ ≠ 0 := ne_of_gt hg
  constructor
  · rw [hinv, hm, dot_scaled, hn, ← hvn, ← h0]
    field_simp
    ring
  · have hdiff : 0 ≤ |R2 - R1| / 4 := div_nonneg (abs_nonneg _) (by norm_num)
    have harg : hs.gravity_ * prescribe_riemann_characteristic sqrt hs component U U_bar n 0 =
        (|R2 - R1| / 4) ^ 2 := by
      rw [h0, hginv, div_pow, div_pow, sq_abs]
      field_simp
      ring
    rw [speed_of_sound, harg]
    exact sqrt_sq_of_nonneg sqrt hsqrt0 hsqrt _ hdiff

/-- The regularised inverse depth of the example state `uFlow`. -/
theorem inverse_water_depth_uFlow (v : K) :
    inverse_water_depth (hsEx K) (uFlow K v) = 981 / 100 := by
  rw [inverse_water_depth_eq_inv (hsEx K) (uFlow K v) (by norm_num [uFlow])
    (by norm_num [uFlow, hsEx])]
  norm_num [uFlow]

/-- The normal velocity of the example state `uFlow` is its parameter. -/
theorem normal_velocity_uFlow (v : K) :
    dot (momentum (uFlow K v)) (nOne K) * inverse_water_depth (hsEx K) (uFlow K v) = v := by
  rw [inverse_water_depth_uFlow]
  simp only [dot, momentum, uFlow, nOne, Finset.univ_unique, Finset.sum_singleton]
  norm_num
  ring

/-- The speed of sound of the example state `uFlow` is `1`. -/
theorem speed_of_sound_uFlow (sqrt : K → K) (hsqrt0 : ∀ x, 0 ≤ sqrt x)
    (hsqrt : ∀ x, 0 ≤ x → sqrt x * sqrt x = x) (v : K) :
    speed_of_sound sqrt (hsEx K) (uFlow K v) = 1 := by
  have harg : (hsEx K).gravity_ * uFlow K v 0 = 1 ^ 2 := by norm_num [hsEx, uFlow]
  rw [speed_of_sound, harg]
  exact sqrt_sq_of_nonneg sqrt hsqrt0 hsqrt 1 zero_le_one

theorem inverse_water_depth_of_depth_zero (hs : HyperbolicSystem K) (U : state_type D K)
    (hU : U 0 = 0) : inverse_water_depth hs U = 0 := by
  simp only [inverse_water_depth, hU, mul_zero, zero_div]

theorem speed_of_sound_of_depth_zero (sqrt : K → K) (hsqrt0 : ∀ x, 0 ≤ sqrt x)
    (hsqrt : ∀ x, 0 ≤ x → sqrt x * sqrt x = x) (hs : HyperbolicSystem K)
    (U : state_type D K) (hU : U 0 = 0) : speed_of_sound sqrt hs U = 0 := by
  have harg : hs.gravity_ * U 0 = 0 ^ 2 := by rw [hU]; ring
  rw [speed_of_sound, harg]
  exact sqrt_sq_of_nonneg sqrt hsqrt0 hsqrt 0 le_rfl

/-- The depth of the example state `vPrescribed`. -/
theorem vPrescribed_depth (sqrt : K → K) (hsqrt0 : ∀ x, 0 ≤ sqrt x)
    (hsqrt : ∀ x, 0 ≤ x → sqrt x * sqrt x = x) (v w : K) :
    vPrescribed K sqrt v w 0 = 100 / 981 * ((w + 2 - (v - 2)) / 4) ^ 2 := by
  have h0 := (prescribe_riemann_characteristic_apply sqrt (hsEx K) 2 (uFlow K v)
    (uFlow K w) (nOne K)).1
  simp only [normal_velocity_uFlow, speed_of_sound_uFlow sqrt hsqrt0 hsqrt, if_true,
    show ¬ (2 : ℕ) = 1 by decide, if_false] at h0
  rw [vPrescribed, h0]
  norm_num [hsEx]

/-- The second invariant re-extracted from the example state `vPrescribed`, when
its depth is at least `h_tiny`. -/
theorem vPrescribed_second_invariant (sqrt : K → K) (hsqrt0 : ∀ x, 0 ≤ sqrt x)
    (hsqrt : ∀ x, 0 ≤ x → sqrt x * sqrt x = x) (v w : K)
    (hV : (1 : K) / 100 ≤ 100 / 981 * ((w + 2 - (v - 2)) / 4) ^ 2) :
    dot (momentum (vPrescribed K sqrt v w)) (nOne K) *
        inverse_water_depth (hsEx K) (vPrescribed K sqrt v w) +
      2 * speed_of_sound sqrt (hsEx K) (vPrescribed K sqrt v w) =
      (v - 2 + (w + 2)) / 2 + 2 * (|w + 2 - (v - 2)| / 4) := by
  have hdepth : (hsEx K).h_tiny_ ≤ water_depth (prescribe_riemann_characteristic sqrt
      (hsEx K) 2 (uFlow K v) (uFlow K w) (nOne K)) := by
    have hd := vPrescribed_depth sqrt hsqrt0 hsqrt v w
    rw [vPrescribed] at hd
    rw [water_depth, hd]
    exact hV
  have hre := prescribe_riemann_characteristic_reextract sqrt (hsEx K) 2 (uFlow K v)
    (uFlow K w) (nOne K) (by norm_num [hsEx]) (by norm_num [hsEx]) (by norm_num [hsEx])
    (by simp [dot, nOne]) hsqrt0 hsqrt hdepth
  simp only [normal_velocity_uFlow, speed_of_sound_uFlow sqrt hsqrt0 hsqrt, if_true,
    show ¬ (2 : ℕ) = 1 by decide, if_false, mul_one] at hre
  rw [vPrescribed, hre.1, hre.2]

/-- The dynamic branch of `apply_boundary_conditions`, reached when the id
`dynamic` differs from the three ids tested before it. -/
theorem apply_boundary_conditions_dynamic (sqrt : K → K) (hs : HyperbolicSystem K)
    (B : Boundary) (U : state_type D K) (n : Fin D → K) (g : Unit → state_type D K)
    (hd1 : B.dynamic ≠ B.dirichlet) (hd2 : B.dynamic ≠ B.slip)
    (hd3 : B.dynamic ≠ B.no_slip) :
    apply_boundary_conditions sqrt hs B B.dynamic U n g =
      if 0 < dot (momentum U) n * inverse_water_depth hs U ∧
          dot (momentum U) n * inverse_water_depth hs U ≤ speed_of_sound sqrt hs U then
        prescribe_riemann_characteristic sqrt hs 1
          (if -speed_of_sound sqrt hs U ≤ dot (momentum U) n * inverse_water_depth hs U ∧
              dot (momentum U) n * inverse_water_depth hs U ≤ 0 then
            prescribe_riemann_characteristic sqrt hs 2 (g ())
              (if dot (momentum U) n * inverse_water_depth hs U < -speed_of_sound sqrt hs U
                then g () else U) n
          else if dot (momentum U) n * inverse_water_depth hs U < -speed_of_sound sqrt hs U
            then g () else U)
          (g ()) n
      else if -speed_of_sound sqrt hs U ≤ dot (momentum U) n * inverse_water_depth hs U ∧
          dot (momentum U) n * inverse_water_depth hs U ≤ 0 then
        prescribe_riemann_characteristic sqrt hs 2 (g ())
          (if dot (momentum U) n * inverse_water_depth hs U < -speed_of_sound sqrt hs U
            then g () else U) n
      else if dot (momentum U) n * inverse_water_depth hs U < -speed_of_sound sqrt hs U
        then g () else U := by
  unfold apply_boundary_conditions
  rw [if_neg hd1, if_neg hd2, if_neg hd3, if_pos rfl]

theorem norm_square_mul_right (v : Fin D → K) (c : K) :
    norm_square (fun i => v i * c) = norm_square v * (c * c) := by
  simp only [norm_square, Finset.sum_mul]
  exact Finset.sum_congr rfl (fun i _ => by ring)

/-- Away from the dry band the kinetic energy is `|m|² / (2 h)`. -/
theorem kinetic_energy_of_le (hs : HyperbolicSystem K) (U : state_type D K)
    (hpos : 0 < U 0) (hle : hs.h_tiny_ ≤ U 0) :
    kinetic_energy hs U = 1 / 2 * norm_square (momentum U) / U 0 := by
  have hne : U 0 ≠ 0 := ne_of_gt hpos
  simp only [kinetic_energy, water_depth, inverse_water_depth_eq_inv hs U hpos hle,
    norm_square_mul_right]
  field_simp
  ring

theorem norm_square_update (v : Fin D → K) (i : Fin D) (t : K) :
    norm_square (Function.update v i t) = norm_square v - v i * v i + t * t := by
  have hterm : ∀ j, Function.update v i t j * Function.update v i t j =
      v j * v j + if j = i then t * t - v i * v i else 0 := by
    intro j
    by_cases hj : j = i
    · subst hj
      simp only [Function.update_same, if_true]
      ring
    · simp only [Function.update_noteq hj, if_neg hj, add_zero]
  simp only [norm_square, hterm, Finset.sum_add_distrib, Finset.sum_ite_eq', Finset.mem_univ,
    if_true]
  ring

/-- Away from the dry band the entropy is `g h² / 2 + |m|² / (2 h)`. -/
theorem mathematical_entropy_of_le (hs : HyperbolicSystem K) (U : state_type D K)
    (hpos : 0 < U 0) (hle : hs.h_tiny_ ≤ U 0) :
    mathematical_entropy hs U =
      1 / 2 * hs.gravity_ * U 0 ^ 2 + 1 / 2 * norm_square (momentum U) * (U 0)⁻¹ := by
  simp only [mathematical_entropy, kinetic_energy_of_le hs U hpos hle, pressure]
  ring

/-- Away from the dry band the entropy derivative is
`(g h - |m|² / (2 h²), m / h)`. -/
theorem mathematical_entropy_derivative_of_le (hs : HyperbolicSystem K) (U : state_type D K)
    (hpos : 0 < U 0) (hle : hs.h_tiny_ ≤ U 0) :
    mathematical_entropy_derivative hs U 0 =
        hs.gravity_ * U 0 - norm_square (momentum U) / (2 * U 0 ^ 2) ∧
      ∀ i, mathematical_entropy_derivative hs U i.succ = momentum U i / U 0 := by
  have hne : U 0 ≠ 0 := ne_of_gt hpos
  constructor
  · simp only [mathematical_entropy_derivative, Fin.cases_zero,
      inverse_water_depth_eq_inv hs U hpos hle, norm_square_mul_right]
    field_simp
    ring
  · intro i
    simp only [mathematical_entropy_derivative, Fin.cases_succ,
      inverse_water_depth_eq_inv hs U hpos hle]
    exact (div_eq_mul_inv _ _).symm

omit [LinearOrderedField K] in
theorem momentum_update_zero (U : state_type D K) (t : K) :
    momentum (Function.update U 0 t) = momentum U := by
  funext i
  simp only [momentum, Function.update_noteq (Fin.succ_ne_zero i)]

omit [LinearOrderedField K] in
theorem momentum_update_succ (U : state_type D K) (i : Fin D) (t : K) :
    momentum (Function.update U i.succ t) = Function.update (momentum U) i t := by
  funext j
  by_cases hj : j = i
  · subst hj
    simp only [momentum, Function.update_same]
  · have hne : j.succ ≠ i.succ := fun hc => hj (Fin.succ_injective _ hc)
    simp only [momentum, Function.update_noteq hj, Function.update_noteq hne]

/-- The partial derivative of the entropy with respect to the depth. -/
theorem hasDerivAt_mathematical_entropy_zero (hs : HyperbolicSystem ℝ)
    (U : state_type D ℝ) (htiny : 0 < hs.h_tiny_) (hU : hs.h_tiny_ < U 0) :
    HasDerivAt (fun t => mathematical_entropy hs (Function.update U 0 t))
      (mathematical_entropy_derivative hs U 0) (U 0) := by
  have hpos : 0 < U 0 := lt_trans htiny hU
  have hne : U 0 ≠ 0 := ne_of_gt hpos
  have hev : Filter.EventuallyEq (nhds (U 0))
      (fun t => mathematical_entropy hs (Function.update U 0 t))
      (fun t => 1 / 2 * hs.gravity_ * t ^ 2 + 1 / 2 * norm_square (momentum U) * t⁻¹) := by
    filter_upwards [lt_mem_nhds hU] with t ht
    have h0 : Function.update U 0 t 0 = t := Function.update_same _ _ _
    rw [mathematical_entropy_of_le hs _ (by rw [h0]; exact lt_trans htiny ht)
      (by rw [h0]; exact le_of_lt ht), h0, momentum_update_zero]
  have hd : HasDerivAt
      (fun t : ℝ => 1 / 2 * hs.gravity_ * t ^ 2 + 1 / 2 * norm_square (momentum U) * t⁻¹)
      (1 / 2 * hs.gravity_ * (2 * U 0 ^ 1 * 1) +
        1 / 2 * norm_square (momentum U) * (-(U 0 ^ 2)⁻¹)) (U 0) :=
    (((hasDerivAt_id (U 0)).pow 2).const_mul _).add ((hasDerivAt_inv hne).const_mul _)
  rw [(mathematical_entropy_derivative_of_le hs U hpos (le_of_lt hU)).1]
  convert hd.congr_of_eventuallyEq hev using 1
  field_simp
  ring

/-- The partial derivative of the entropy with respect to a momentum
component. -/
theorem hasDerivAt_mathematical_entropy_succ (hs : HyperbolicSystem ℝ)
    (U : state_type D ℝ) (htiny : 0 < hs.h_tiny_) (hU : hs.h_tiny_ < U 0) (i : Fin D) :
    HasDerivAt (fun t => mathematical_entropy hs (Function.update U i.succ t))
      (mathematical_entropy_derivative hs U i.succ) (U i.succ) := by
  have hpos : 0 < U 0 := lt_trans htiny hU
  have h0 : ∀ t, Function.update U i.succ t 0 = U 0 :=
    fun t => Function.update_noteq (Fin.succ_ne_zero i).symm _ _
  have heq : (fun t => mathematical_entropy hs (Function.update U i.succ t)) =
      fun t => 1 / 2 * hs.gravity_ * U 0 ^ 2 +
        1 / 2 * (norm_square (momentum U) - momentum U i * momentum U i + t * t) *
          (U 0)⁻¹ := by
    funext t
    rw [mathematical_entropy_of_le hs _ (by rw [h0]; exact hpos)
      (by rw [h0]; exact le_of_lt hU), h0, momentum_update_succ, norm_square_update]
  have hd : HasDerivAt (fun t : ℝ => 1 / 2 * hs.gravity_ * U 0 ^ 2 +
        1 / 2 * (norm_square (momentum U) - momentum U i * momentum U i + t * t) *
          (U 0)⁻¹)
      (1 / 2 * (1 * U i.succ + U i.succ * 1) * (U 0)⁻¹) (U i.succ) :=
    (((((hasDerivAt_id (U i.succ)).mul (hasDerivAt_id (U i.succ))).const_add _).const_mul
      _).mul_const _).const_add _
  rw [(mathematical_entropy_derivative_of_le hs U hpos (le_of_lt hU)).2 i, heq]
  convert hd using 1
  simp only [momentum]
  rw [div_eq_mul_inv]
  ring

/-- The entropy is differentiable at every state above the dry band. -/
theorem differentiableAt_mathematical_entropy (hs : HyperbolicSystem ℝ)
    (U : state_type D ℝ) (htiny : 0 < hs.h_tiny_) (hU : hs.h_tiny_ < U 0) :
    DifferentiableAt ℝ (fun V : state_type D ℝ => mathematical_entropy hs V) U := by
  have hpos : 0 < U 0 := lt_trans htiny hU
  have hne : U 0 ≠ 0 := ne_of_gt hpos
  have hcont : Continuous (fun V : state_type D ℝ => V 0) := continuous_apply 0
  have hev : Filter.EventuallyEq (nhds U)
      (fun V : state_type D ℝ => mathematical_entropy hs V)
      (fun V => 1 / 2 * hs.gravity_ * V 0 ^ 2 +
        1 / 2 * (∑ i : Fin D, V i.succ * V i.succ) * (V 0)⁻¹) := by
    filter_upwards [hcont.continuousAt.eventually (lt_mem_nhds hU)] with V hV
    rw [mathematical_entropy_of_le hs V (lt_trans htiny hV) (le_of_lt hV)]
    rfl
  have hd : DifferentiableAt ℝ (fun V : state_type D ℝ =>
      1 / 2 * hs.gravity_ * V 0 ^ 2 +
        1 / 2 * (∑ i : Fin D, V i.succ * V i.succ) * (V 0)⁻¹) U := by
    fun_prop (disch := exact hne)
  exact hd.congr_of_eventuallyEq hev

/-- On a flat bed a state at or above a positive `h_tiny_` is its own star
state. -/
theorem star_state_flat_bed_of_le (hs : HyperbolicSystem K) (U : state_type D K) (Z : K)
    (htiny : 0 < hs.h_tiny_) (hU : hs.h_tiny_ ≤ water_depth U) :
    star_state hs U Z Z = U := by
  have hpos : 0 < water_depth U := lt_of_lt_of_le htiny hU
  funext k
  rw [star_state_apply_of_le hs U Z Z htiny hU k, max_self, add_sub_cancel_right,
    max_eq_right hpos.le, div_self (ne_of_gt hpos), one_mul]

theorem dot_sub_mul (m n : Fin D → K) (c : K) :
    dot (fun k => m k - c * n k) n = dot m n - c * dot n n := by
  simp only [dot, Finset.mul_sum, ← Finset.sum_sub_distrib]
  exact Finset.sum_congr rfl (fun i _ => by ring)

/-- The slip branch of `apply_boundary_conditions`. -/
theorem apply_boundary_conditions_slip_eq (sqrt : K → K) (hs : HyperbolicSystem K)
    (B : Boundary) (U : state_type D K) (n : Fin D → K) (g : Unit → state_type D K)
    (hs1 : B.slip ≠ B.dirichlet) :
    apply_boundary_conditions sqrt hs B B.slip U n g =
      Fin.cases (U 0) (fun k => momentum U k - 1 * dot (momentum U) n * n k) := by
  unfold apply_boundary_conditions
  rw [if_neg hs1, if_pos rfl]

theorem norm_square_nonneg (v : Fin D → K) : 0 ≤ norm_square v :=
  Finset.sum_nonneg (fun i _ => mul_self_nonneg (v i))

/-- For a positive `h_tiny_` and a nonnegative depth the regularised inverse is
at most `1 / h_tiny_`. -/
theorem inverse_water_depth_le (hs : HyperbolicSystem K) (U : state_type D K)
    (htiny : 0 < hs.h_tiny_) (hU : 0 ≤ U 0) :
    inverse_water_depth hs U ≤ 1 / hs.h_tiny_ := by
  have hle : hs.h_tiny_ ≤ max (U 0) hs.h_tiny_ := le_max_right _ _
  have hmax : 0 < max (U 0) hs.h_tiny_ := lt_of_lt_of_le htiny hle
  have hden : 0 < U 0 ^ 2 + max (U 0) hs.h_tiny_ ^ 2 := by positivity
  rw [inverse_water_depth_eq, div_le_div_iff₀ hden htiny]
  nlinarith [sq_nonneg (U 0 - max (U 0) hs.h_tiny_), mul_nonneg hU (sub_nonneg.2 hle)]

theorem inverse_water_depth_denom_pos_of_tiny (hs : HyperbolicSystem K) (U : state_type D K)
    (htiny : 0 < hs.h_tiny_) : 0 < inverse_water_depth_denom hs U := by
  have hmax : 0 < max (U 0) hs.h_tiny_ := lt_max_of_lt_right htiny
  rw [inverse_water_depth_denom_eq]
  positivity

/-- For a positive `h_tiny_` the quotient of `inverse_water_depth` is a
number. -/
theorem inverse_water_depth_checked_eq_some (hs : HyperbolicSystem K) (U : state_type D K)
    (htiny : 0 < hs.h_tiny_) :
    inverse_water_depth_checked hs U = some (inverse_water_depth hs U) := by
  unfold inverse_water_depth_checked
  rw [if_neg (ne_of_gt (inverse_water_depth_denom_pos_of_tiny hs U htiny))]
  rfl

theorem star_state_checked_eq_some (hs : HyperbolicSystem K) (U : state_type D K)
    (Z_left Z_right : K) (htiny : 0 < hs.h_tiny_) :
    star_state_checked hs U Z_left Z_right = some (star_state hs U Z_left Z_right) := by
  unfold star_state_checked
  rw [inverse_water_depth_checked_eq_some hs U htiny]
  rfl

theorem speed_of_sound_checked_eq_some (sqrt : K → K) (hs : HyperbolicSystem K)
    (U : state_type D K) (hgh : 0 ≤ hs.gravity_ * U 0) :
    speed_of_sound_checked sqrt hs U = some (speed_of_sound sqrt hs U) := by
  unfold speed_of_sound_checked
  rw [if_neg (not_lt.2 hgh)]
  rfl

/-- Where both the inverse depth and the speed of sound are numbers, the four
regime tests are the comparisons of `vn` with `a`. -/
theorem dynamic_regime_tests_eq (sqrt : K → K) (hs : HyperbolicSystem K)
    (U : state_type D K) (n : Fin D → K) (htiny : 0 < hs.h_tiny_)
    (hgh : 0 ≤ hs.gravity_ * U 0) :
    dynamic_regime_tests sqrt hs U n =
      [decide (dot (momentum U) n * inverse_water_depth hs U < -speed_of_sound sqrt hs U),
        decide (-speed_of_sound sqrt hs U ≤ dot (momentum U) n * inverse_water_depth hs U ∧
          dot (momentum U) n * inverse_water_depth hs U ≤ 0),
        decide (0 < dot (momentum U) n * inverse_water_depth hs U ∧
          dot (momentum U) n * inverse_water_depth hs U ≤ speed_of_sound sqrt hs U),
        decide (speed_of_sound sqrt hs U < dot (momentum U) n * inverse_water_depth hs U)] := by
  unfold dynamic_regime_tests
  rw [inverse_water_depth_checked_eq_some hs U htiny,
    speed_of_sound_checked_eq_some sqrt hs U hgh]

end Lemmas

/-! ## Claims -/

section Claims

variable {K : Type} [LinearOrderedField K] {D : Nat}

/-- C1: for every configuration and every state `U` with depth `h = U[0]`,
`inverse_water_depth(U)` equals `2 h / (h² + max(h, h_tiny)²)`, where `h_tiny`
is the member `h_tiny_` of the configuration. -/
theorem inverse_water_depth_formula (hs : HyperbolicSystem K) (U : state_type D K) :
    inverse_water_depth hs U = 2 * U 0 / (U 0 ^ 2 + max (U 0) hs.h_tiny_ ^ 2) :=
  inverse_water_depth_eq hs U

/-- C2: if `h_tiny ≥ 0` and the depth of `U` is strictly greater than `h_tiny`
then `inverse_water_depth(U) * water_depth(U) = 1`, that is
`inverse_water_depth(U) = 1 / h`. -/
theorem inverse_water_depth_mul_water_depth (hs : HyperbolicSystem K)
    (U : state_type D K) (htiny : 0 ≤ hs.h_tiny_) (hU : hs.h_tiny_ < water_depth U) :
    inverse_water_depth hs U * water_depth U = 1 ∧
      inverse_water_depth hs U = 1 / water_depth U := by
  have hpos : 0 < U 0 := lt_of_le_of_lt htiny hU
  have hinv := inverse_water_depth_eq_inv hs U hpos (le_of_lt hU)
  refine ⟨?_, ?_⟩
  · rw [hinv]
    exact inv_mul_cancel₀ (ne_of_gt hpos)
  · rw [hinv, one_div]
    rfl

/-- Evaluation of C2 at `hsQ` and the state `(2, (1, 0))`. -/
theorem inverse_water_depth_mul_water_depth_witness :
    (0 ≤ hsQ.h_tiny_ ∧ hsQ.h_tiny_ < water_depth uQ) ∧
      (inverse_water_depth hsQ uQ * water_depth uQ = 1 ∧
        inverse_water_depth hsQ uQ = 1 / water_depth uQ) :=
  ⟨⟨by norm_num [hsQ], by norm_num [hsQ, uQ, water_depth]⟩,
    inverse_water_depth_mul_water_depth hsQ uQ (by norm_num [hsQ])
      (by norm_num [hsQ, uQ, water_depth])⟩

/-- C3: if `h_tiny > 0` then for a state of any depth `h` (zero and negative
included) the denominator `h² + max(h, h_tiny)²` by which
`inverse_water_depth` divides is strictly positive, hence not zero. -/
theorem inverse_water_depth_denom_pos (hs : HyperbolicSystem K) (U : state_type D K)
    (htiny : 0 < hs.h_tiny_) :
    inverse_water_depth hs U = 2 * U 0 / inverse_water_depth_denom hs U ∧
      inverse_water_depth_denom hs U = U 0 ^ 2 + max (U 0) hs.h_tiny_ ^ 2 ∧
      0 < inverse_water_depth_denom hs U ∧ inverse_water_depth_denom hs U ≠ 0 := by
  have hmax : 0 < max (U 0) hs.h_tiny_ := lt_max_of_lt_right htiny
  have hpos : 0 < inverse_water_depth_denom hs U := by
    rw [inverse_water_depth_denom_eq]
    positivity
  exact ⟨rfl, inverse_water_depth_denom_eq hs U, hpos, ne_of_gt hpos⟩

/-- Evaluation of C3 at `hsQ` and the state of depth zero. -/
theorem inverse_water_depth_denom_pos_witness :
    0 < hsQ.h_tiny_ ∧
      (inverse_water_depth hsQ uZero = 2 * uZero 0 / inverse_water_depth_denom hsQ uZero ∧
        inverse_water_depth_denom hsQ uZero = uZero 0 ^ 2 + max (uZero 0) hsQ.h_tiny_ ^ 2 ∧
        0 < inverse_water_depth_denom hsQ uZero ∧ inverse_water_depth_denom hsQ uZero ≠ 0) :=
  ⟨by norm_num [hsQ], inverse_water_depth_denom_pos hsQ uZero (by norm_num [hsQ])⟩

/-- C4: `star_state(U, Z_left, Z_right)` is `U` scaled in every component by
`H_star * inverse_water_depth(U)` with
`H_star = max(0, h + Z_left - max(Z_left, Z_right))`. -/
theorem star_state_formula (hs : HyperbolicSystem K) (U : state_type D K)
    (Z_left Z_right : K) (k : Fin (D + 1)) :
    star_state hs U Z_left Z_right k =
      U k * (max 0 (water_depth U + Z_left - max Z_left Z_right) *
        inverse_water_depth hs U) := by
  simp only [star_state, std_max_eq_max, mul_assoc]

/-- C5, as stated, fails: for the configuration `hsNoTol` with `h_tiny = 0`
and the state `uZero` of depth `0 ≥ 0` the denominator of
`inverse_water_depth` is `0`, the source divides `0` by `0`, and the star state
has no depth that is a number, hence none that is `≥ 0`. -/
theorem star_state_water_depth_nonneg_counterexample :
    0 ≤ water_depth uZero ∧ inverse_water_depth_denom (hsNoTol ℚ) uZero = 0 ∧
      star_state_checked (hsNoTol ℚ) uZero 0 0 = none ∧
      ¬ ∃ V, star_state_checked (hsNoTol ℚ) uZero 0 0 = some V ∧ 0 ≤ water_depth V := by
  have hden : inverse_water_depth_denom (hsNoTol ℚ) uZero = 0 := by
    norm_num [inverse_water_depth_denom, std_max, hsNoTol, uZero]
  have hnone : star_state_checked (hsNoTol ℚ) uZero 0 0 = none := by
    simp only [star_state_checked, inverse_water_depth_checked, hden, if_true, Option.map_none']
  refine ⟨by norm_num [water_depth, uZero], hden, hnone, ?_⟩
  rintro ⟨V, hV, _⟩
  rw [hnone] at hV
  exact Option.noConfusion hV

/-- C5 (amended): if `h_tiny > 0` and `water_depth(U) ≥ 0` then the star state
is a number in every component and
`water_depth(star_state(U, Z_left, Z_right)) ≥ 0`. -/
theorem star_state_water_depth_nonneg (hs : HyperbolicSystem K) (U : state_type D K)
    (Z_left Z_right : K) (htiny : 0 < hs.h_tiny_) (hU : 0 ≤ water_depth U) :
    star_state_checked hs U Z_left Z_right = some (star_state hs U Z_left Z_right) ∧
      0 ≤ water_depth (star_state hs U Z_left Z_right) := by
  have h0 : 0 ≤ U 0 := hU
  refine ⟨star_state_checked_eq_some hs U Z_left Z_right htiny, ?_⟩
  simp only [water_depth, star_state]
  exact mul_nonneg (mul_nonneg h0 (std_max_zero_nonneg _))
    (inverse_water_depth_nonneg hs U h0)

/-- Evaluation of the amended C5 at `hsQ`, the dry-band state `uDry` and a bed
step. -/
theorem star_state_water_depth_nonneg_witness :
    (0 < hsQ.h_tiny_ ∧ 0 ≤ water_depth uDry) ∧
      star_state_checked hsQ uDry 0 1 = some (star_state hsQ uDry 0 1) ∧
      0 ≤ water_depth (star_state hsQ uDry 0 1) :=
  ⟨⟨by norm_num [hsQ], by norm_num [uDry, water_depth]⟩,
    star_state_water_depth_nonneg hsQ uDry 0 1 (by norm_num [hsQ])
      (by norm_num [uDry, water_depth])⟩

/-- C6, as stated, fails: on the flat bed `Z_left = Z_right = 0` the state
`uDry` of depth `1/200`, inside the dry band of `hsQ` (`h_tiny = 1/100`), is
returned with depth `1/500`. -/
theorem star_state_flat_bed_counterexample :
    star_state hsQ uDry 0 0 0 = 1 / 500 ∧ uDry 0 = 1 / 200 ∧
      star_state hsQ uDry 0 0 ≠ uDry := by
  have hval : star_state hsQ uDry 0 0 0 = 1 / 500 := by
    norm_num [star_state, std_max, water_depth, inverse_water_depth,
      inverse_water_depth_denom, hsQ, uDry]
  have hu : uDry 0 = 1 / 200 := by norm_num [uDry]
  refine ⟨hval, hu, fun heq => ?_⟩
  have h0 := congrFun heq 0
  rw [hval, hu] at h0
  norm_num at h0

/-- C6 (amended): for `h_tiny > 0`, on a flat bed `star_state(U, Z, Z) = U` in
every component exactly when `U` is the zero state or the depth `h` of `U`
satisfies `h ≥ h_tiny`. -/
theorem star_state_flat_bed_iff (hs : HyperbolicSystem K) (U : state_type D K) (Z : K)
    (htiny : 0 < hs.h_tiny_) :
    star_state hs U Z Z = U ↔ ((∀ k, U k = 0) ∨ hs.h_tiny_ ≤ water_depth U) := by
  have hH : std_max (0 : K) (water_depth U + Z - std_max Z Z) = max 0 (U 0) := by
    simp only [std_max_eq_max, max_self, water_depth, add_sub_cancel_right]
  constructor
  · intro heq
    by_cases hz : ∀ k, U k = 0
    · exact Or.inl hz
    · right
      push_neg at hz
      obtain ⟨k, hk⟩ := hz
      have hkk := congrFun heq k
      simp only [star_state, hH] at hkk
      have hone : max 0 (U 0) * inverse_water_depth hs U = 1 := by
        have h1 : U k * (max 0 (U 0) * inverse_water_depth hs U) = U k * 1 := by
          rw [mul_one, ← mul_assoc]
          exact hkk
        exact mul_left_cancel₀ hk h1
      have hpos : 0 < U 0 := by
        by_contra hneg
        rw [max_eq_left (not_lt.1 hneg), zero_mul] at hone
        exact zero_ne_one hone
      rw [max_eq_right hpos.le, inverse_water_depth_eq] at hone
      have hmaxpos : 0 < max (U 0) hs.h_tiny_ := lt_max_of_lt_left hpos
      have hden : 0 < U 0 ^ 2 + max (U 0) hs.h_tiny_ ^ 2 := by positivity
      rw [← mul_div_assoc, div_eq_one_iff_eq (ne_of_gt hden)] at hone
      have hsq : max (U 0) hs.h_tiny_ ^ 2 = U 0 ^ 2 := by linear_combination -hone
      have hmax : max (U 0) hs.h_tiny_ = U 0 :=
        (pow_left_inj₀ hmaxpos.le hpos.le two_ne_zero).1 hsq
      exact max_eq_left_iff.1 hmax
  · rintro (hz | hle)
    · funext k
      simp only [star_state, hz k, zero_mul]
    · exact star_state_flat_bed_of_le hs U Z htiny hle

/-- Evaluation of the amended C6 at `hsQ`: the state `(2, (1, 0))` of depth
`2 ≥ h_tiny` over the flat bed at level `3` is its own star state. -/
theorem star_state_flat_bed_iff_witness :
    (0 < hsQ.h_tiny_ ∧ hsQ.h_tiny_ ≤ water_depth uQ) ∧ star_state hsQ uQ 3 3 = uQ :=
  ⟨⟨by norm_num [hsQ], by norm_num [hsQ, uQ, water_depth]⟩,
    (star_state_flat_bed_iff hsQ uQ 3 (by norm_num [hsQ])).2
      (Or.inr (by norm_num [hsQ, uQ, water_depth]))⟩

/-- C7: if `h_tiny > 0` and `h ≥ h_tiny` then, with
`H_star = max(0, h + Z_left - max(Z_left, Z_right))`, the star state has depth
`H_star` and momentum `(H_star / h) * momentum(U)`; whenever `H_star > 0` its
velocity momentum/depth equals the velocity `momentum(U) / h` of `U`. -/
theorem star_state_depth_momentum_velocity (hs : HyperbolicSystem K) (U : state_type D K)
    (Z_left Z_right : K) (htiny : 0 < hs.h_tiny_) (hU : hs.h_tiny_ ≤ water_depth U) :
    water_depth (star_state hs U Z_left Z_right) =
        max 0 (water_depth U + Z_left - max Z_left Z_right) ∧
      (∀ i, momentum (star_state hs U Z_left Z_right) i =
        max 0 (water_depth U + Z_left - max Z_left Z_right) / water_depth U *
          momentum U i) ∧
      (0 < max 0 (water_depth U + Z_left - max Z_left Z_right) →
        ∀ i, momentum (star_state hs U Z_left Z_right) i /
            water_depth (star_state hs U Z_left Z_right) =
          momentum U i / water_depth U) := by
  have hpos : 0 < water_depth U := lt_of_lt_of_le htiny hU
  have hdepth := star_state_water_depth_of_le hs U Z_left Z_right htiny hU
  have hmom : ∀ i, momentum (star_state hs U Z_left Z_right) i =
      max 0 (water_depth U + Z_left - max Z_left Z_right) / water_depth U *
        momentum U i :=
    fun i => star_state_apply_of_le hs U Z_left Z_right htiny hU i.succ
  refine ⟨hdepth, hmom, fun hH i => ?_⟩
  rw [hmom i, hdepth]
  field_simp
  ring

/-- Evaluation of C7 at `hsQ`, the state `(2, (1, 0))` and the bed step from
`0` up to `1`, where `H_star = 1 > 0`. -/
theorem star_state_depth_momentum_velocity_witness :
    (0 < hsQ.h_tiny_ ∧ hsQ.h_tiny_ ≤ water_depth uQ ∧
        0 < max 0 (water_depth uQ + 0 - max 0 1)) ∧
      (water_depth (star_state hsQ uQ 0 1) = max 0 (water_depth uQ + 0 - max 0 1) ∧
        (∀ i, momentum (star_state hsQ uQ 0 1) i =
          max 0 (water_depth uQ + 0 - max 0 1) / water_depth uQ * momentum uQ i) ∧
        (∀ i, momentum (star_state hsQ uQ 0 1) i / water_depth (star_state hsQ uQ 0 1) =
          momentum uQ i / water_depth uQ)) :=
  have hH : (0 : ℚ) < max 0 (water_depth uQ + 0 - max 0 1) := by
    norm_num [uQ, water_depth]
  have hall := star_state_depth_momentum_velocity hsQ uQ 0 1 (by norm_num [hsQ])
    (by norm_num [hsQ, uQ, water_depth])
  ⟨⟨by norm_num [hsQ], by norm_num [hsQ, uQ, water_depth], hH⟩,
    hall.1, hall.2.1, hall.2.2 hH⟩

/-- C8 (lake at rest): if `h_tiny > 0`, both states have zero momentum, the
free surfaces agree, `h_i + Z_i = h_j + Z_j`, and both depths are at least
`h_tiny`, then the two states returned by `equilibrated_states` are equal; each
has depth `max(0, h_i + Z_i - max(Z_i, Z_j))` and zero momentum, whatever the
bed step `Z_i - Z_j` is. -/
theorem equilibrated_states_lake_at_rest (hs : HyperbolicSystem K)
    (U_i U_j : state_type D K) (Z_i Z_j : K) (htiny : 0 < hs.h_tiny_)
    (hm_i : ∀ k, momentum U_i k = 0) (hm_j : ∀ k, momentum U_j k = 0)
    (hsurface : water_depth U_i + Z_i = water_depth U_j + Z_j)
    (hU_i : hs.h_tiny_ ≤ water_depth U_i) (hU_j : hs.h_tiny_ ≤ water_depth U_j) :
    (equilibrated_states hs (U_i, Z_i) (U_j, Z_j)).1 =
        (equilibrated_states hs (U_i, Z_i) (U_j, Z_j)).2 ∧
      water_depth (equilibrated_states hs (U_i, Z_i) (U_j, Z_j)).1 =
        max 0 (water_depth U_i + Z_i - max Z_i Z_j) ∧
      (∀ k, momentum (equilibrated_states hs (U_i, Z_i) (U_j, Z_j)).1 k = 0) ∧
      water_depth (equilibrated_states hs (U_i, Z_i) (U_j, Z_j)).2 =
        max 0 (water_depth U_i + Z_i - max Z_i Z_j) ∧
      (∀ k, momentum (equilibrated_states hs (U_i, Z_i) (U_j, Z_j)).2 k = 0) := by
  have hd_i := star_state_water_depth_of_le hs U_i Z_i Z_j htiny hU_i
  have hd_j := star_state_water_depth_of_le hs U_j Z_j Z_i htiny hU_j
  rw [← hsurface, max_comm Z_j Z_i] at hd_j
  have hmom_i : ∀ k, momentum (star_state hs U_i Z_i Z_j) k = 0 := by
    intro k
    have hk : U_i k.succ = 0 := hm_i k
    simp only [momentum, star_state, hk, zero_mul]
  have hmom_j : ∀ k, momentum (star_state hs U_j Z_j Z_i) k = 0 := by
    intro k
    have hk : U_j k.succ = 0 := hm_j k
    simp only [momentum, star_state, hk, zero_mul]
  refine ⟨?_, hd_i, hmom_i, hd_j, hmom_j⟩
  show star_state hs U_i Z_i Z_j = star_state hs U_j Z_j Z_i
  funext k
  refine Fin.cases ?_ (fun i => ?_) k
  · exact hd_i.trans hd_j.symm
  · exact (hmom_i i).trans (hmom_j i).symm

/-- Evaluation of C8 at `hsQ` for a lake with free surface at level `3`: depth
`2` over the bed at `1` next to depth `1` over the bed at `2`. -/
theorem equilibrated_states_lake_at_rest_witness :
    (0 < hsQ.h_tiny_ ∧ (∀ k, momentum uLakeI k = 0) ∧ (∀ k, momentum uLakeJ k = 0) ∧
        water_depth uLakeI + 1 = water_depth uLakeJ + 2 ∧
        hsQ.h_tiny_ ≤ water_depth uLakeI ∧ hsQ.h_tiny_ ≤ water_depth uLakeJ) ∧
      ((equilibrated_states hsQ (uLakeI, 1) (uLakeJ, 2)).1 =
          (equilibrated_states hsQ (uLakeI, 1) (uLakeJ, 2)).2 ∧
        water_depth (equilibrated_states hsQ (uLakeI, 1) (uLakeJ, 2)).1 =
          max 0 (water_depth uLakeI + 1 - max 1 2) ∧
        (∀ k, momentum (equilibrated_states hsQ (uLakeI, 1) (uLakeJ, 2)).1 k = 0) ∧
        water_depth (equilibrated_states hsQ (uLakeI, 1) (uLakeJ, 2)).2 =
          max 0 (water_depth uLakeI + 1 - max 1 2) ∧
        (∀ k, momentum (equilibrated_states hsQ (uLakeI, 1) (uLakeJ, 2)).2 k = 0)) :=
  ⟨⟨by norm_num [hsQ],
      by intro k; fin_cases k <;> simp [momentum, uLakeI],
      by intro k; fin_cases k <;> simp [momentum, uLakeJ],
      by norm_num [water_depth, uLakeI, uLakeJ],
      by norm_num [hsQ, water_depth, uLakeI],
      by norm_num [hsQ, water_depth, uLakeJ]⟩,
    equilibrated_states_lake_at_rest hsQ uLakeI uLakeJ 1 2 (by norm_num [hsQ])
      (by intro k; fin_cases k <;> simp [momentum, uLakeI])
      (by intro k; fin_cases k <;> simp [momentum, uLakeJ])
      (by norm_num [water_depth, uLakeI, uLakeJ])
      (by norm_num [hsQ, water_depth, uLakeI])
      (by norm_num [hsQ, water_depth, uLakeJ])⟩

/-- C9: for a state `U` in `D` space dimensions with momentum `m`, the flux
`f(U)` has row `0` equal to `m` and entry `(1 + i, j)` equal to
`m_i * m_j * inverse_water_depth(U) + pressure(U) * δ_ij`. -/
theorem f_formula (hs : HyperbolicSystem K) (U : state_type D K) :
    f hs U 0 = momentum U ∧
      ∀ i j : Fin D, f hs U i.succ j =
        momentum U i * momentum U j * inverse_water_depth hs U +
          pressure hs U * (if i = j then 1 else 0) := by
  refine ⟨rfl, fun i j => ?_⟩
  simp only [f, Fin.cases_succ]
  by_cases hij : i = j
  · subst hij
    simp only [if_true]
    ring
  · have hji : ¬ j = i := fun hje => hij hje.symm
    simp only [if_neg hij, if_neg hji]
    ring

/-- C10: for precomputed tuples `prec_i = (U_i, Z_i)` and `prec_j = (U_j, Z_j)`
every entry of `flux(prec_i, prec_j)` is the sum of the corresponding entries
of `f(star_state(U_i, Z_i, Z_j))` and `f(star_state(U_j, Z_j, Z_i))`. -/
theorem flux_eq_f_star_state_add (hs : HyperbolicSystem K) (prec_i prec_j : prec_type D K)
    (r : Fin (D + 1)) (c : Fin D) :
    flux hs prec_i prec_j r c =
      f hs (star_state hs prec_i.1 prec_i.2 prec_j.2) r c +
        f hs (star_state hs prec_j.1 prec_j.2 prec_i.2) r c := by
  obtain ⟨U_i, Z_i⟩ := prec_i
  obtain ⟨U_j, Z_j⟩ := prec_j
  rfl

/-- C11: every entry of `high_order_flux(prec_i, prec_j)` is the sum of the
entries of `f(U_i)` and `f(U_j)`; replacing the bathymetry values `Z_i`, `Z_j`
by any other values leaves the result unchanged. -/
theorem high_order_flux_eq_f_add (hs : HyperbolicSystem K) (prec_i prec_j : prec_type D K) :
    (∀ r c, high_order_flux hs prec_i prec_j r c =
        f hs prec_i.1 r c + f hs prec_j.1 r c) ∧
      ∀ Z_i Z_j : K, high_order_flux hs (prec_i.1, Z_i) (prec_j.1, Z_j) =
        high_order_flux hs prec_i prec_j := by
  obtain ⟨U_i, Y_i⟩ := prec_i
  obtain ⟨U_j, Y_j⟩ := prec_j
  exact ⟨fun _ _ => rfl, fun _ _ => rfl⟩

/-- C12 (worked example): with gravity `9.81`, a dry state tolerance
`0 < h_tiny ≤ 2` and the state `(h, m) = (2, (1, 0))`, the velocity is
`(0.5, 0)`, the pressure `19.62`, the kinetic energy `0.25`, the entropy
`19.87`, the speed of sound `sqrt(19.62)`, between `4.429` and `4.430`, and the
flux has the rows `(1, 0)`, `(20.12, 0)`, `(0, 19.62)`.  The square root is any
function that is nonnegative and squares back to its nonnegative argument;
the bound `h_tiny ≤ 2` alone is used, so every `0 < h_tiny ≤ 2` is covered. -/
theorem worked_example (sqrt : K → K) (hs : HyperbolicSystem K)
    (hg : hs.gravity_ = 981 / 100) (htiny2 : hs.h_tiny_ ≤ 2)
    (hsqrt0 : ∀ x, 0 ≤ sqrt x) (hsqrt : ∀ x, 0 ≤ x → sqrt x * sqrt x = x) :
    (∀ i, momentum (![2, 1, 0] : state_type 2 K) i *
        inverse_water_depth hs (![2, 1, 0] : state_type 2 K) = (![1 / 2, 0] : Fin 2 → K) i) ∧
      pressure hs (![2, 1, 0] : state_type 2 K) = 1962 / 100 ∧
      kinetic_energy hs (![2, 1, 0] : state_type 2 K) = 1 / 4 ∧
      mathematical_entropy hs (![2, 1, 0] : state_type 2 K) = 1987 / 100 ∧
      speed_of_sound sqrt hs (![2, 1, 0] : state_type 2 K) = sqrt (1962 / 100) ∧
      4429 / 1000 < speed_of_sound sqrt hs (![2, 1, 0] : state_type 2 K) ∧
      speed_of_sound sqrt hs (![2, 1, 0] : state_type 2 K) < 4430 / 1000 ∧
      f hs (![2, 1, 0] : state_type 2 K) 0 = ![1, 0] ∧
      f hs (![2, 1, 0] : state_type 2 K) 1 = ![2012 / 100, 0] ∧
      f hs (![2, 1, 0] : state_type 2 K) 2 = ![0, 1962 / 100] := by
  have hinv : inverse_water_depth hs (![2, 1, 0] : state_type 2 K) = 1 / 2 := by
    rw [inverse_water_depth_eq_inv hs _ (by norm_num) (by simpa using htiny2)]
    norm_num
  have hp : pressure hs (![2, 1, 0] : state_type 2 K) = 1962 / 100 := by
    simp only [pressure, hg]
    norm_num
  have hke : kinetic_energy hs (![2, 1, 0] : state_type 2 K) = 1 / 4 := by
    simp only [kinetic_energy, norm_square, hinv, Fin.sum_univ_two, momentum, water_depth]
    norm_num
  have hsos : speed_of_sound sqrt hs (![2, 1, 0] : state_type 2 K) = sqrt (1962 / 100) := by
    simp only [speed_of_sound, hg]
    norm_num
  have hs0 := hsqrt0 (1962 / 100)
  have hs2 := hsqrt (1962 / 100) (by norm_num)
  refine ⟨?_, hp, hke, ?_, hsos, ?_, ?_, ?_, ?_, ?_⟩
  · intro i
    rw [hinv]
    fin_cases i <;> simp [momentum]
  · simp only [mathematical_entropy, hp, hke]
    norm_num
  · rw [hsos]
    by_contra hcon
    have hle := not_lt.1 hcon
    nlinarith
  · rw [hsos]
    by_contra hcon
    have hle := not_lt.1 hcon
    nlinarith
  · rfl
  · funext j
    show f hs _ (Fin.succ 0) j = _
    rw [f_succ_apply, hinv, hp]
    fin_cases j <;> norm_num [momentum]
  · funext j
    show f hs _ (Fin.succ 1) j = _
    rw [f_succ_apply, hinv, hp]
    fin_cases j <;> simp [momentum]

/-- Evaluation of C12 over the real numbers with the real square root and the
tolerance `h_tiny = 1/100`. -/
theorem worked_example_witness :
    ((hsEx ℝ).gravity_ = 981 / 100 ∧ (hsEx ℝ).h_tiny_ ≤ 2 ∧
        (∀ x, 0 ≤ Real.sqrt x) ∧ (∀ x, 0 ≤ x → Real.sqrt x * Real.sqrt x = x)) ∧
      kinetic_energy (hsEx ℝ) (![2, 1, 0] : state_type 2 ℝ) = 1 / 4 ∧
      mathematical_entropy (hsEx ℝ) (![2, 1, 0] : state_type 2 ℝ) = 1987 / 100 ∧
      4429 / 1000 < speed_of_sound Real.sqrt (hsEx ℝ) (![2, 1, 0] : state_type 2 ℝ) ∧
      speed_of_sound Real.sqrt (hsEx ℝ) (![2, 1, 0] : state_type 2 ℝ) < 4430 / 1000 ∧
      f (hsEx ℝ) (![2, 1, 0] : state_type 2 ℝ) 1 = ![2012 / 100, 0] :=
  have hall := worked_example Real.sqrt (hsEx ℝ) rfl (by norm_num [hsEx])
    Real.sqrt_nonneg (fun _ hx => Real.mul_self_sqrt hx)
  ⟨⟨rfl, by norm_num [hsEx], Real.sqrt_nonneg,
      fun _ hx => Real.mul_self_sqrt hx⟩,
    hall.2.2.1, hall.2.2.2.1, hall.2.2.2.2.2.1, hall.2.2.2.2.2.2.1, hall.2.2.2.2.2.2.2.2.1⟩

/-- C13: over a lane type with any number `W` of lanes, `is_admissible(U)` is
true if and only if the depth `U[0]` is strictly positive in every lane; the
scalar function is the case of one lane; and a batch in which one lane has
depth `≤ 0` while all other lanes have positive depth is inadmissible. -/
theorem is_admissible_iff_all_lanes_pos {W : Nat} (U : vectorized_state_type D W K) :
    (is_admissible_vectorized U = true ↔ ∀ l, 0 < U 0 l) ∧
      (∀ V : state_type D K,
        is_admissible V = is_admissible_vectorized (fun k (_ : Fin 1) => V k)) ∧
      (∀ l₀, U 0 l₀ ≤ 0 → (∀ l, l ≠ l₀ → 0 < U 0 l) →
        is_admissible_vectorized U = false) := by
  have hiff : is_admissible_vectorized U = true ↔ ∀ l, 0 < U 0 l := by
    simp only [is_admissible_vectorized, decide_eq_true_eq]
    exact forall_congr' (fun l => compare_and_apply_mask_gt_eq_zero_iff (U 0 l))
  refine ⟨hiff, fun V => ?_, fun l₀ hl₀ _ => ?_⟩
  · rw [Bool.eq_iff_iff]
    simp only [is_admissible, is_admissible_vectorized, decide_eq_true_eq, water_depth]
    exact ⟨fun hV _ => hV, fun hV => hV 0⟩
  · rw [← Bool.not_eq_true, hiff]
    exact fun hall => absurd (hall l₀) (not_lt.2 hl₀)

/-- Evaluation of C13 at the batch `uBatch` of four lanes, whose third lane
alone has a depth that is not positive. -/
theorem is_admissible_iff_all_lanes_pos_witness :
    (uBatch 0 2 ≤ 0 ∧ ∀ l, l ≠ 2 → 0 < uBatch 0 l) ∧
      is_admissible_vectorized uBatch = false :=
  have hlane : uBatch 0 2 ≤ 0 := by norm_num [uBatch]
  have hothers : ∀ l : Fin 4, l ≠ 2 → 0 < uBatch 0 l := by
    intro l hl
    fin_cases l <;> first | exact absurd rfl hl | norm_num [uBatch]
  ⟨⟨hlane, hothers⟩, (is_admissible_iff_all_lanes_pos uBatch).2.2 2 hlane hothers⟩

/-- C14, as stated, fails: the state `uZero` has depth `0 ≥ 0` and is reported
inadmissible. -/
theorem is_admissible_zero_depth_counterexample :
    0 ≤ water_depth uZero ∧ is_admissible uZero = false := by
  refine ⟨by norm_num [water_depth, uZero], ?_⟩
  rw [← Bool.not_eq_true, is_admissible_eq_true_iff]
  norm_num [uZero]

/-- C14 (amended): for a scalar state `U`, `is_admissible(U)` is true exactly
when `water_depth(U) > 0`; a state of depth exactly `0` is not admissible. -/
theorem is_admissible_iff_water_depth_pos (U : state_type D K) :
    (is_admissible U = true ↔ 0 < water_depth U) ∧
      (water_depth U = 0 → is_admissible U = false) := by
  refine ⟨is_admissible_eq_true_iff U, fun hzero => ?_⟩
  have h0 : U 0 = 0 := hzero
  rw [← Bool.not_eq_true, is_admissible_eq_true_iff, h0]
  exact lt_irrefl 0

/-- Evaluation of the amended C14 at the state `uZero` of depth zero. -/
theorem is_admissible_iff_water_depth_pos_witness :
    water_depth uZero = 0 ∧ is_admissible uZero = false :=
  ⟨by norm_num [water_depth, uZero],
    (is_admissible_iff_water_depth_pos uZero).2 (by norm_num [water_depth, uZero])⟩

/-- C15: for `component` `1` or `2`, with `vn = (momentum(U)·n) *
inverse_water_depth(U)`, `a = speed_of_sound(U)`, `vn_bar`, `a_bar` the same
for `U_bar`, `R1 = vn_bar - 2 a_bar` if the component is `1` and `vn - 2 a`
otherwise, `R2 = vn_bar + 2 a_bar` if the component is `2` and `vn + 2 a`
otherwise, the result of `prescribe_riemann_characteristic` has depth
`h_new = gravity_inverse * ((R2 - R1) / 4)²` and momentum
`h_new * (((R1 + R2) / 2) * n + (momentum(U) * inverse_water_depth(U) - vn * n))`. -/
theorem prescribe_riemann_characteristic_formula (sqrt : K → K) (hs : HyperbolicSystem K)
    (component : Nat) (U U_bar : state_type D K) (n : Fin D → K) :
    let vn := dot (momentum U) n * inverse_water_depth hs U
    let a := speed_of_sound sqrt hs U
    let vn_bar := dot (momentum U_bar) n * inverse_water_depth hs U_bar
    let a_bar := speed_of_sound sqrt hs U_bar
    let R1 := if component = 1 then vn_bar - 2 * a_bar else vn - 2 * a
    let R2 := if component = 2 then vn_bar + 2 * a_bar else vn + 2 * a
    let h_new := hs.gravity_inverse_ * ((R2 - R1) / 4) ^ 2
    water_depth (prescribe_riemann_characteristic sqrt hs component U U_bar n) = h_new ∧
      ∀ d, momentum (prescribe_riemann_characteristic sqrt hs component U U_bar n) d =
        h_new * ((R1 + R2) / 2 * n d +
          (momentum U d * inverse_water_depth hs U - vn * n d)) := by
  intro vn a vn_bar a_bar R1 R2 h_new
  refine ⟨rfl, fun d => ?_⟩
  show h_new * (1 / 2 * (R1 + R2) * n d +
      (momentum U d * inverse_water_depth hs U - vn * n d)) = _
  ring

/-- C16, as stated, fails.  Over the real numbers, with gravity `9.81`,
`h_tiny = 1/100`, the unit normal `(1)` and states of depth `100/981 ≥ h_tiny`
(speed of sound `1`): the second invariant of `U_bar` (velocity `0`) is `2`,
but the one re-extracted from `prescribe_riemann_characteristic<2>(U, U_bar, n)`
is `8` when `U` has velocity `10` (there `R1 = 8 > R2 = 2`), and `0` when `U`
has velocity `4` (there `R1 = R2`, and the result has depth `0 < h_tiny`). -/
theorem riemann_round_trip_counterexample :
    (0 < (hsEx ℝ).gravity_ ∧ (hsEx ℝ).gravity_inverse_ = 1 / (hsEx ℝ).gravity_ ∧
        0 < (hsEx ℝ).h_tiny_ ∧ dot (nOne ℝ) (nOne ℝ) = 1 ∧
        (hsEx ℝ).h_tiny_ ≤ water_depth (uFlow ℝ 0) ∧
        (hsEx ℝ).h_tiny_ ≤ water_depth (uFlow ℝ 10) ∧
        (hsEx ℝ).h_tiny_ ≤ water_depth (uFlow ℝ 4)) ∧
      dot (momentum (uFlow ℝ 0)) (nOne ℝ) * inverse_water_depth (hsEx ℝ) (uFlow ℝ 0) +
        2 * speed_of_sound Real.sqrt (hsEx ℝ) (uFlow ℝ 0) = 2 ∧
      dot (momentum (vPrescribed ℝ Real.sqrt 10 0)) (nOne ℝ) *
          inverse_water_depth (hsEx ℝ) (vPrescribed ℝ Real.sqrt 10 0) +
        2 * speed_of_sound Real.sqrt (hsEx ℝ) (vPrescribed ℝ Real.sqrt 10 0) = 8 ∧
      dot (momentum (vPrescribed ℝ Real.sqrt 4 0)) (nOne ℝ) *
          inverse_water_depth (hsEx ℝ) (vPrescribed ℝ Real.sqrt 4 0) +
        2 * speed_of_sound Real.sqrt (hsEx ℝ) (vPrescribed ℝ Real.sqrt 4 0) = 0 := by
  have hsqrt : ∀ x : ℝ, 0 ≤ x → Real.sqrt x * Real.sqrt x = x :=
    fun _ hx => Real.mul_self_sqrt hx
  refine ⟨⟨by norm_num [hsEx], by norm_num [hsEx], by norm_num [hsEx],
    by simp [dot, nOne], by norm_num [hsEx, water_depth, uFlow],
    by norm_num [hsEx, water_depth, uFlow], by norm_num [hsEx, water_depth, uFlow]⟩,
    ?_, ?_, ?_⟩
  · rw [normal_velocity_uFlow, speed_of_sound_uFlow Real.sqrt Real.sqrt_nonneg hsqrt]
    norm_num
  · rw [vPrescribed_second_invariant Real.sqrt Real.sqrt_nonneg hsqrt 10 0 (by norm_num)]
    norm_num [abs_of_neg]
  · have hzero : vPrescribed ℝ Real.sqrt 4 0 0 = 0 := by
      rw [vPrescribed_depth Real.sqrt Real.sqrt_nonneg hsqrt]
      norm_num
    rw [inverse_water_depth_of_depth_zero _ _ hzero,
      speed_of_sound_of_depth_zero Real.sqrt Real.sqrt_nonneg hsqrt _ _ hzero]
    norm_num

/-- C16 (amended): for `g > 0`, `gravity_inverse = 1/g`, `h_tiny > 0`, a unit
normal `n` and states `U`, `U_bar`, let `V =
prescribe_riemann_characteristic<2>(U, U_bar, n)`.  If the invariants it
combines are ordered, `R1 = vn(U) - 2 a(U) ≤ R2 = vn(U_bar) + 2 a(U_bar)`, and
the depth of `V` is at least `h_tiny`, then the second invariant re-extracted
from `V` equals the second invariant of `U_bar`. -/
theorem riemann_invariant_round_trip (sqrt : K → K) (hs : HyperbolicSystem K)
    (U U_bar : state_type D K) (n : Fin D → K)
    (hg : 0 < hs.gravity_) (hginv : hs.gravity_inverse_ = 1 / hs.gravity_)
    (htiny : 0 < hs.h_tiny_) (hn : dot n n = 1)
    (hsqrt0 : ∀ x, 0 ≤ sqrt x) (hsqrt : ∀ x, 0 ≤ x → sqrt x * sqrt x = x)
    (hR : dot (momentum U) n * inverse_water_depth hs U - 2 * speed_of_sound sqrt hs U ≤
      dot (momentum U_bar) n * inverse_water_depth hs U_bar +
        2 * speed_of_sound sqrt hs U_bar)
    (hV : hs.h_tiny_ ≤ water_depth (prescribe_riemann_characteristic sqrt hs 2 U U_bar n)) :
    dot (momentum (prescribe_riemann_characteristic sqrt hs 2 U U_bar n)) n *
        inverse_water_depth hs (prescribe_riemann_characteristic sqrt hs 2 U U_bar n) +
      2 * speed_of_sound sqrt hs (prescribe_riemann_characteristic sqrt hs 2 U U_bar n) =
      dot (momentum U_bar) n * inverse_water_depth hs U_bar +
        2 * speed_of_sound sqrt hs U_bar := by
  have hre := prescribe_riemann_characteristic_reextract sqrt hs 2 U U_bar n hg hginv
    htiny hn hsqrt0 hsqrt hV
  simp only [if_true, show ¬ (2 : ℕ) = 1 by decide, if_false] at hre
  rw [hre.1, hre.2, abs_of_nonneg (sub_nonneg.2 hR)]
  ring

/-- Evaluation of the amended C16 over the real numbers: the state at rest and
the state of velocity `1/2`, both of depth `100/981`, with `R1 = -2 ≤ R2 = 5/2`. -/
theorem riemann_invariant_round_trip_witness :
    (0 < (hsEx ℝ).gravity_ ∧ (hsEx ℝ).gravity_inverse_ = 1 / (hsEx ℝ).gravity_ ∧
        0 < (hsEx ℝ).h_tiny_ ∧ dot (nOne ℝ) (nOne ℝ) = 1 ∧
        (hsEx ℝ).h_tiny_ ≤ water_depth (vPrescribed ℝ Real.sqrt 0 (1 / 2))) ∧
      dot (momentum (vPrescribed ℝ Real.sqrt 0 (1 / 2))) (nOne ℝ) *
          inverse_water_depth (hsEx ℝ) (vPrescribed ℝ Real.sqrt 0 (1 / 2)) +
        2 * speed_of_sound Real.sqrt (hsEx ℝ) (vPrescribed ℝ Real.sqrt 0 (1 / 2)) =
        dot (momentum (uFlow ℝ (1 / 2))) (nOne ℝ) *
            inverse_water_depth (hsEx ℝ) (uFlow ℝ (1 / 2)) +
          2 * speed_of_sound Real.sqrt (hsEx ℝ) (uFlow ℝ (1 / 2)) :=
  have hsqrt : ∀ x : ℝ, 0 ≤ x → Real.sqrt x * Real.sqrt x = x :=
    fun _ hx => Real.mul_self_sqrt hx
  have hV : (hsEx ℝ).h_tiny_ ≤ water_depth (vPrescribed ℝ Real.sqrt 0 (1 / 2)) := by
    rw [water_depth, vPrescribed_depth Real.sqrt Real.sqrt_nonneg hsqrt]
    norm_num [hsEx]
  have hR : dot (momentum (uFlow ℝ 0)) (nOne ℝ) * inverse_water_depth (hsEx ℝ) (uFlow ℝ 0) -
      2 * speed_of_sound Real.sqrt (hsEx ℝ) (uFlow ℝ 0) ≤
      dot (momentum (uFlow ℝ (1 / 2))) (nOne ℝ) *
          inverse_water_depth (hsEx ℝ) (uFlow ℝ (1 / 2)) +
        2 * speed_of_sound Real.sqrt (hsEx ℝ) (uFlow ℝ (1 / 2)) := by
    rw [normal_velocity_uFlow, normal_velocity_uFlow,
      speed_of_sound_uFlow Real.sqrt Real.sqrt_nonneg hsqrt,
      speed_of_sound_uFlow Real.sqrt Real.sqrt_nonneg hsqrt]
    norm_num
  ⟨⟨by norm_num [hsEx], by norm_num [hsEx], by norm_num [hsEx], by simp [dot, nOne], hV⟩,
    riemann_invariant_round_trip Real.sqrt (hsEx ℝ) (uFlow ℝ 0) (uFlow ℝ (1 / 2)) (nOne ℝ)
      (by norm_num [hsEx]) (by norm_num [hsEx]) (by norm_num [hsEx]) (by simp [dot, nOne])
      Real.sqrt_nonneg hsqrt hR hV⟩

/-- C17 (dynamic boundary, supersonic inflow): with `vn = (momentum(U)·n) *
inverse_water_depth(U)` and `a = speed_of_sound(U)`, if `vn < -a` then
`apply_boundary_conditions(dynamic, U, n, f)` returns exactly `f()`.  The id
`dynamic` is distinct from `dirichlet`, `slip` and `no_slip`. -/
theorem apply_boundary_conditions_supersonic_inflow (sqrt : K → K)
    (hs : HyperbolicSystem K) (B : Boundary) (U : state_type D K) (n : Fin D → K)
    (get_dirichlet_data : Unit → state_type D K)
    (hd1 : B.dynamic ≠ B.dirichlet) (hd2 : B.dynamic ≠ B.slip)
    (hd3 : B.dynamic ≠ B.no_slip)
    (hvn : dot (momentum U) n * inverse_water_depth hs U < -speed_of_sound sqrt hs U) :
    apply_boundary_conditions sqrt hs B B.dynamic U n get_dirichlet_data =
      get_dirichlet_data () := by
  have h2 : ¬ (-speed_of_sound sqrt hs U ≤ dot (momentum U) n * inverse_water_depth hs U ∧
      dot (momentum U) n * inverse_water_depth hs U ≤ 0) :=
    fun hc => absurd hvn (not_lt.2 hc.1)
  have h3 : ¬ (0 < dot (momentum U) n * inverse_water_depth hs U ∧
      dot (momentum U) n * inverse_water_depth hs U ≤ speed_of_sound sqrt hs U) := by
    rintro ⟨hpos, hle⟩
    linarith
  rw [apply_boundary_conditions_dynamic sqrt hs B U n get_dirichlet_data hd1 hd2 hd3,
    if_neg h3, if_neg h2, if_pos hvn]

/-- Evaluation of C17 over the real numbers: the interior state has normal
velocity `-10` and speed of sound `1`. -/
theorem apply_boundary_conditions_supersonic_inflow_witness :
    (boundaryEx.dynamic ≠ boundaryEx.dirichlet ∧ boundaryEx.dynamic ≠ boundaryEx.slip ∧
        boundaryEx.dynamic ≠ boundaryEx.no_slip ∧
        dot (momentum (uFlow ℝ (-10))) (nOne ℝ) * inverse_water_depth (hsEx ℝ) (uFlow ℝ (-10)) <
          -speed_of_sound Real.sqrt (hsEx ℝ) (uFlow ℝ (-10))) ∧
      apply_boundary_conditions Real.sqrt (hsEx ℝ) boundaryEx boundaryEx.dynamic
        (uFlow ℝ (-10)) (nOne ℝ) (fun _ => uFlow ℝ 0) = uFlow ℝ 0 :=
  have hvn : dot (momentum (uFlow ℝ (-10))) (nOne ℝ) *
      inverse_water_depth (hsEx ℝ) (uFlow ℝ (-10)) <
        -speed_of_sound Real.sqrt (hsEx ℝ) (uFlow ℝ (-10)) := by
    rw [normal_velocity_uFlow, speed_of_sound_uFlow Real.sqrt Real.sqrt_nonneg
      (fun _ hx => Real.mul_self_sqrt hx)]
    norm_num
  ⟨⟨by decide, by decide, by decide, hvn⟩,
    apply_boundary_conditions_supersonic_inflow Real.sqrt (hsEx ℝ) boundaryEx
      (uFlow ℝ (-10)) (nOne ℝ) (fun _ => uFlow ℝ 0) (by decide) (by decide) (by decide) hvn⟩

/-- C18 (dynamic boundary, supersonic outflow): if `vn > a` then
`apply_boundary_conditions(dynamic, U, n, f)` returns exactly the input `U`.
The square root is nonnegative, and the id `dynamic` is distinct from
`dirichlet`, `slip` and `no_slip`. -/
theorem apply_boundary_conditions_supersonic_outflow (sqrt : K → K)
    (hs : HyperbolicSystem K) (B : Boundary) (U : state_type D K) (n : Fin D → K)
    (get_dirichlet_data : Unit → state_type D K) (hsqrt0 : ∀ x, 0 ≤ sqrt x)
    (hd1 : B.dynamic ≠ B.dirichlet) (hd2 : B.dynamic ≠ B.slip)
    (hd3 : B.dynamic ≠ B.no_slip)
    (hvn : speed_of_sound sqrt hs U < dot (momentum U) n * inverse_water_depth hs U) :
    apply_boundary_conditions sqrt hs B B.dynamic U n get_dirichlet_data = U := by
  have ha : 0 ≤ speed_of_sound sqrt hs U := hsqrt0 _
  have h1 : ¬ (dot (momentum U) n * inverse_water_depth hs U < -speed_of_sound sqrt hs U) := by
    intro hc
    linarith
  have h2 : ¬ (-speed_of_sound sqrt hs U ≤ dot (momentum U) n * inverse_water_depth hs U ∧
      dot (momentum U) n * inverse_water_depth hs U ≤ 0) := by
    rintro ⟨_, hle⟩
    linarith
  have h3 : ¬ (0 < dot (momentum U) n * inverse_water_depth hs U ∧
      dot (momentum U) n * inverse_water_depth hs U ≤ speed_of_sound sqrt hs U) :=
    fun hc => absurd hvn (not_lt.2 hc.2)
  rw [apply_boundary_conditions_dynamic sqrt hs B U n get_dirichlet_data hd1 hd2 hd3,
    if_neg h3, if_neg h2, if_neg h1]

/-- Evaluation of C18 over the real numbers: the interior state has normal
velocity `10` and speed of sound `1`. -/
theorem apply_boundary_conditions_supersonic_outflow_witness :
    ((∀ x, 0 ≤ Real.sqrt x) ∧ boundaryEx.dynamic ≠ boundaryEx.dirichlet ∧
        boundaryEx.dynamic ≠ boundaryEx.slip ∧ boundaryEx.dynamic ≠ boundaryEx.no_slip ∧
        speed_of_sound Real.sqrt (hsEx ℝ) (uFlow ℝ 10) <
          dot (momentum (uFlow ℝ 10)) (nOne ℝ) * inverse_water_depth (hsEx ℝ) (uFlow ℝ 10)) ∧
      apply_boundary_conditions Real.sqrt (hsEx ℝ) boundaryEx boundaryEx.dynamic
        (uFlow ℝ 10) (nOne ℝ) (fun _ => uFlow ℝ 0) = uFlow ℝ 10 :=
  have hvn : speed_of_sound Real.sqrt (hsEx ℝ) (uFlow ℝ 10) <
      dot (momentum (uFlow ℝ 10)) (nOne ℝ) * inverse_water_depth (hsEx ℝ) (uFlow ℝ 10) := by
    rw [normal_velocity_uFlow, speed_of_sound_uFlow Real.sqrt Real.sqrt_nonneg
      (fun _ hx => Real.mul_self_sqrt hx)]
    norm_num
  ⟨⟨Real.sqrt_nonneg, by decide, by decide, by decide, hvn⟩,
    apply_boundary_conditions_supersonic_outflow Real.sqrt (hsEx ℝ) boundaryEx
      (uFlow ℝ 10) (nOne ℝ) (fun _ => uFlow ℝ 0) Real.sqrt_nonneg (by decide) (by decide)
      (by decide) hvn⟩

/-- C21, as stated, fails.  For the state `uNegative` of depth `-1` the
argument `gravity_ * U[0]` of the square root is negative, and for the state
`uDryBed` of depth `0` under the configuration `hsNoTol` with `h_tiny = 0` the
inverse depth is `0 / 0`; in both cases an operand of every comparison is not a
number and none of the four regime tests holds. -/
theorem dynamic_regimes_counterexample :
    ((hsEx ℝ).gravity_ * uNegative ℝ 0 < 0 ∧
        dynamic_regime_tests Real.sqrt (hsEx ℝ) (uNegative ℝ) (nOne ℝ) =
          [false, false, false, false]) ∧
      (inverse_water_depth_denom (hsNoTol ℝ) (uDryBed ℝ) = 0 ∧
        dynamic_regime_tests Real.sqrt (hsNoTol ℝ) (uDryBed ℝ) (nOne ℝ) =
          [false, false, false, false]) := by
  have hneg : (hsEx ℝ).gravity_ * uNegative ℝ 0 < 0 := by norm_num [hsEx, uNegative]
  have hden : inverse_water_depth_denom (hsNoTol ℝ) (uDryBed ℝ) = 0 := by
    norm_num [inverse_water_depth_denom, std_max, hsNoTol, uDryBed]
  refine ⟨⟨hneg, ?_⟩, hden, ?_⟩
  · have hnone : speed_of_sound_checked Real.sqrt (hsEx ℝ) (uNegative ℝ) = none := by
      simp only [speed_of_sound_checked, if_pos hneg]
    unfold dynamic_regime_tests
    rw [hnone]
    cases inverse_water_depth_checked (hsEx ℝ) (uNegative ℝ) <;> rfl
  · have hnone : inverse_water_depth_checked (hsNoTol ℝ) (uDryBed ℝ) = none := by
      simp only [inverse_water_depth_checked, hden, if_true]
    unfold dynamic_regime_tests
    rw [hnone]

/-- C21 (amended): for `h_tiny > 0` and a state `U` with `g h ≥ 0`, with
`vn = (momentum(U)·n) * inverse_water_depth(U)` and `a = speed_of_sound(U)`
computed once from the input `U`, exactly one of the four regime conditions
`vn < -a`, `-a ≤ vn ≤ 0`, `0 < vn ≤ a`, `vn > a` holds; hence the three `if`
blocks of the dynamic branch, run one after the other, act as one chain of
alternatives on the input `U`, and exactly one of the four tests as the code
evaluates them is true.  The square root of a nonnegative number is
nonnegative, and the id `dynamic` is distinct from `dirichlet`, `slip` and
`no_slip`. -/
theorem dynamic_regimes_exactly_one (sqrt : K → K) (hs : HyperbolicSystem K)
    (B : Boundary) (U : state_type D K) (n : Fin D → K)
    (get_dirichlet_data : Unit → state_type D K) (htiny : 0 < hs.h_tiny_)
    (hgh : 0 ≤ hs.gravity_ * water_depth U) (hsqrt0 : ∀ x, 0 ≤ x → 0 ≤ sqrt x)
    (hd1 : B.dynamic ≠ B.dirichlet) (hd2 : B.dynamic ≠ B.slip)
    (hd3 : B.dynamic ≠ B.no_slip) :
    ((dot (momentum U) n * inverse_water_depth hs U < -speed_of_sound sqrt hs U ∧
          ¬ (-speed_of_sound sqrt hs U ≤ dot (momentum U) n * inverse_water_depth hs U ∧
            dot (momentum U) n * inverse_water_depth hs U ≤ 0) ∧
          ¬ (0 < dot (momentum U) n * inverse_water_depth hs U ∧
            dot (momentum U) n * inverse_water_depth hs U ≤ speed_of_sound sqrt hs U) ∧
          ¬ speed_of_sound sqrt hs U < dot (momentum U) n * inverse_water_depth hs U) ∨
        (¬ dot (momentum U) n * inverse_water_depth hs U < -speed_of_sound sqrt hs U ∧
          (-speed_of_sound sqrt hs U ≤ dot (momentum U) n * inverse_water_depth hs U ∧
            dot (momentum U) n * inverse_water_depth hs U ≤ 0) ∧
          ¬ (0 < dot (momentum U) n * inverse_water_depth hs U ∧
            dot (momentum U) n * inverse_water_depth hs U ≤ speed_of_sound sqrt hs U) ∧
          ¬ speed_of_sound sqrt hs U < dot (momentum U) n * inverse_water_depth hs U) ∨
        (¬ dot (momentum U) n * inverse_water_depth hs U < -speed_of_sound sqrt hs U ∧
          ¬ (-speed_of_sound sqrt hs U ≤ dot (momentum U) n * inverse_water_depth hs U ∧
            dot (momentum U) n * inverse_water_depth hs U ≤ 0) ∧
          (0 < dot (momentum U) n * inverse_water_depth hs U ∧
            dot (momentum U) n * inverse_water_depth hs U ≤ speed_of_sound sqrt hs U) ∧
          ¬ speed_of_sound sqrt hs U < dot (momentum U) n * inverse_water_depth hs U) ∨
        (¬ dot (momentum U) n * inverse_water_depth hs U < -speed_of_sound sqrt hs U ∧
          ¬ (-speed_of_sound sqrt hs U ≤ dot (momentum U) n * inverse_water_depth hs U ∧
            dot (momentum U) n * inverse_water_depth hs U ≤ 0) ∧
          ¬ (0 < dot (momentum U) n * inverse_water_depth hs U ∧
            dot (momentum U) n * inverse_water_depth hs U ≤ speed_of_sound sqrt hs U) ∧
          speed_of_sound sqrt hs U < dot (momentum U) n * inverse_water_depth hs U)) ∧
      (apply_boundary_conditions sqrt hs B B.dynamic U n get_dirichlet_data =
        if dot (momentum U) n * inverse_water_depth hs U < -speed_of_sound sqrt hs U then
          get_dirichlet_data ()
        else if -speed_of_sound sqrt hs U ≤ dot (momentum U) n * inverse_water_depth hs U ∧
            dot (momentum U) n * inverse_water_depth hs U ≤ 0 then
          prescribe_riemann_characteristic sqrt hs 2 (get_dirichlet_data ()) U n
        else if 0 < dot (momentum U) n * inverse_water_depth hs U ∧
            dot (momentum U) n * inverse_water_depth hs U ≤ speed_of_sound sqrt hs U then
          prescribe_riemann_characteristic sqrt hs 1 U (get_dirichlet_data ()) n
        else U) ∧
      (dynamic_regime_tests sqrt hs U n).count true = 1 := by
  have hgh0 : 0 ≤ hs.gravity_ * U 0 := hgh
  have ha : 0 ≤ speed_of_sound sqrt hs U := hsqrt0 _ hgh0
  rw [apply_boundary_conditions_dynamic sqrt hs B U n get_dirichlet_data hd1 hd2 hd3,
    dynamic_regime_tests_eq sqrt hs U n htiny hgh0]
  generalize dot (momentum U) n * inverse_water_depth hs U = vn
  generalize speed_of_sound sqrt hs U = a at ha
  by_cases h1 : vn < -a
  · have h2 : ¬ (-a ≤ vn ∧ vn ≤ 0) := fun hc => absurd h1 (not_lt.2 hc.1)
    have h3 : ¬ (0 < vn ∧ vn ≤ a) := fun hc => by linarith [hc.1]
    have h4 : ¬ a < vn := fun hc => by linarith
    exact ⟨Or.inl ⟨h1, h2, h3, h4⟩, by simp only [if_pos h1, if_neg h2, if_neg h3],
      by simp only [decide_eq_true h1, decide_eq_false h2, decide_eq_false h3,
        decide_eq_false h4]; rfl⟩
  · by_cases h2 : -a ≤ vn ∧ vn ≤ 0
    · have h3 : ¬ (0 < vn ∧ vn ≤ a) := fun hc => absurd hc.1 (not_lt.2 h2.2)
      have h4 : ¬ a < vn := fun hc => by linarith [h2.2]
      exact ⟨Or.inr (Or.inl ⟨h1, h2, h3, h4⟩),
        by simp only [if_neg h1, if_pos h2, if_neg h3],
        by simp only [decide_eq_false h1, decide_eq_true h2, decide_eq_false h3,
          decide_eq_false h4]; rfl⟩
    · by_cases h3 : 0 < vn ∧ vn ≤ a
      · have h4 : ¬ a < vn := not_lt.2 h3.2
        exact ⟨Or.inr (Or.inr (Or.inl ⟨h1, h2, h3, h4⟩)),
          by simp only [if_neg h1, if_neg h2, if_pos h3],
          by simp only [decide_eq_false h1, decide_eq_false h2, decide_eq_true h3,
            decide_eq_false h4]; rfl⟩
      · have h4 : a < vn := by
          by_contra hc
          have hle : vn ≤ a := not_lt.1 hc
          have hge : -a ≤ vn := not_lt.1 h1
          by_cases hpos : 0 < vn
          · exact h3 ⟨hpos, hle⟩
          · exact h2 ⟨hge, not_lt.1 hpos⟩
        exact ⟨Or.inr (Or.inr (Or.inr ⟨h1, h2, h3, h4⟩)),
          by simp only [if_neg h1, if_neg h2, if_neg h3],
          by simp only [decide_eq_false h1, decide_eq_false h2, decide_eq_false h3,
            decide_eq_true h4]; rfl⟩

/-- Evaluation of the amended C21 over the real numbers at the interior state with normal
velocity `10` and speed of sound `1`: the fourth regime holds and the state is
returned. -/
theorem dynamic_regimes_exactly_one_witness :
    (0 < (hsEx ℝ).h_tiny_ ∧ 0 ≤ (hsEx ℝ).gravity_ * water_depth (uFlow ℝ 10) ∧
        (∀ x : ℝ, 0 ≤ x → 0 ≤ Real.sqrt x) ∧ boundaryEx.dynamic ≠ boundaryEx.dirichlet ∧
        boundaryEx.dynamic ≠ boundaryEx.slip ∧ boundaryEx.dynamic ≠ boundaryEx.no_slip) ∧
      speed_of_sound Real.sqrt (hsEx ℝ) (uFlow ℝ 10) <
        dot (momentum (uFlow ℝ 10)) (nOne ℝ) * inverse_water_depth (hsEx ℝ) (uFlow ℝ 10) ∧
      apply_boundary_conditions Real.sqrt (hsEx ℝ) boundaryEx boundaryEx.dynamic
        (uFlow ℝ 10) (nOne ℝ) (fun _ => uFlow ℝ 0) = uFlow ℝ 10 ∧
      (dynamic_regime_tests Real.sqrt (hsEx ℝ) (uFlow ℝ 10) (nOne ℝ)).count true = 1 :=
  have hall := dynamic_regimes_exactly_one Real.sqrt (hsEx ℝ) boundaryEx (uFlow ℝ 10)
    (nOne ℝ) (fun _ => uFlow ℝ 0) (by norm_num [hsEx])
    (by norm_num [hsEx, water_depth, uFlow]) (fun x _ => Real.sqrt_nonneg x)
    (by decide) (by decide) (by decide)
  have hvn : speed_of_sound Real.sqrt (hsEx ℝ) (uFlow ℝ 10) <
      dot (momentum (uFlow ℝ 10)) (nOne ℝ) * inverse_water_depth (hsEx ℝ) (uFlow ℝ 10) := by
    rw [normal_velocity_uFlow, speed_of_sound_uFlow Real.sqrt Real.sqrt_nonneg
      (fun _ hx => Real.mul_self_sqrt hx)]
    norm_num
  have h1 : ¬ dot (momentum (uFlow ℝ 10)) (nOne ℝ) *
      inverse_water_depth (hsEx ℝ) (uFlow ℝ 10) <
        -speed_of_sound Real.sqrt (hsEx ℝ) (uFlow ℝ 10) := by
    rw [normal_velocity_uFlow, speed_of_sound_uFlow Real.sqrt Real.sqrt_nonneg
      (fun _ hx => Real.mul_self_sqrt hx)]
    norm_num
  have h2 : ¬ (-speed_of_sound Real.sqrt (hsEx ℝ) (uFlow ℝ 10) ≤
      dot (momentum (uFlow ℝ 10)) (nOne ℝ) * inverse_water_depth (hsEx ℝ) (uFlow ℝ 10) ∧
      dot (momentum (uFlow ℝ 10)) (nOne ℝ) * inverse_water_depth (hsEx ℝ) (uFlow ℝ 10) ≤
        0) := by
    rw [normal_velocity_uFlow]
    norm_num
  have h3 : ¬ (0 < dot (momentum (uFlow ℝ 10)) (nOne ℝ) *
        inverse_water_depth (hsEx ℝ) (uFlow ℝ 10) ∧
      dot (momentum (uFlow ℝ 10)) (nOne ℝ) * inverse_water_depth (hsEx ℝ) (uFlow ℝ 10) ≤
        speed_of_sound Real.sqrt (hsEx ℝ) (uFlow ℝ 10)) :=
    fun hc => absurd hvn (not_lt.2 hc.2)
  ⟨⟨by norm_num [hsEx], by norm_num [hsEx, water_depth, uFlow],
      fun x _ => Real.sqrt_nonneg x, by decide, by decide, by decide⟩, hvn,
    by rw [hall.2.1, if_neg h1, if_neg h2, if_neg h3], hall.2.2⟩

/-- C22: for the id `dirichlet`, `apply_boundary_conditions` returns exactly
`f()`, whatever the state `U` and the normal `n` are. -/
theorem apply_boundary_conditions_dirichlet (sqrt : K → K) (hs : HyperbolicSystem K)
    (B : Boundary) (U : state_type D K) (n : Fin D → K)
    (get_dirichlet_data : Unit → state_type D K) :
    apply_boundary_conditions sqrt hs B B.dirichlet U n get_dirichlet_data =
        get_dirichlet_data () ∧
      ∀ (U' : state_type D K) (n' : Fin D → K),
        apply_boundary_conditions sqrt hs B B.dirichlet U' n' get_dirichlet_data =
          apply_boundary_conditions sqrt hs B B.dirichlet U n get_dirichlet_data := by
  have hall : ∀ (V : state_type D K) (ν : Fin D → K),
      apply_boundary_conditions sqrt hs B B.dirichlet V ν get_dirichlet_data =
        get_dirichlet_data () := by
    intro V ν
    unfold apply_boundary_conditions
    rw [if_pos rfl]
  exact ⟨hall U n, fun U' n' => (hall U' n').trans (hall U n).symm⟩

/-- C23: for the id `slip` (distinct from `dirichlet`) and a state
`U = (h, m)`, `apply_boundary_conditions` returns the state with the same depth
`h` and the momentum `m - (m·n) n`. -/
theorem apply_boundary_conditions_slip (sqrt : K → K) (hs : HyperbolicSystem K)
    (B : Boundary) (U : state_type D K) (n : Fin D → K)
    (get_dirichlet_data : Unit → state_type D K) (hs1 : B.slip ≠ B.dirichlet) :
    water_depth (apply_boundary_conditions sqrt hs B B.slip U n get_dirichlet_data) =
        water_depth U ∧
      ∀ k, momentum (apply_boundary_conditions sqrt hs B B.slip U n get_dirichlet_data) k =
        momentum U k - dot (momentum U) n * n k := by
  have heq : apply_boundary_conditions sqrt hs B B.slip U n get_dirichlet_data =
      Fin.cases (U 0) (fun k => momentum U k - 1 * dot (momentum U) n * n k) := by
    unfold apply_boundary_conditions
    rw [if_neg hs1, if_pos rfl]
  rw [heq]
  refine ⟨rfl, fun k => ?_⟩
  simp only [momentum, Fin.cases_succ, one_mul]

/-- Evaluation of C23 at the one dimensional state of velocity `3` with the
normal `(1)`. -/
theorem apply_boundary_conditions_slip_witness :
    boundaryEx.slip ≠ boundaryEx.dirichlet ∧
      water_depth (apply_boundary_conditions Real.sqrt (hsEx ℝ) boundaryEx boundaryEx.slip
        (uFlow ℝ 3) (nOne ℝ) (fun _ => uFlow ℝ 0)) = water_depth (uFlow ℝ 3) ∧
      ∀ k, momentum (apply_boundary_conditions Real.sqrt (hsEx ℝ) boundaryEx boundaryEx.slip
          (uFlow ℝ 3) (nOne ℝ) (fun _ => uFlow ℝ 0)) k =
        momentum (uFlow ℝ 3) k - dot (momentum (uFlow ℝ 3)) (nOne ℝ) * nOne ℝ k :=
  ⟨by decide, apply_boundary_conditions_slip Real.sqrt (hsEx ℝ) boundaryEx (uFlow ℝ 3)
    (nOne ℝ) (fun _ => uFlow ℝ 0) (by decide)⟩

/-- C24: for the id `no_slip` (distinct from `dirichlet` and `slip`) and a
state `U = (h, m)`, `apply_boundary_conditions` returns the state with the same
depth `h` and all momentum components equal to `0`. -/
theorem apply_boundary_conditions_no_slip (sqrt : K → K) (hs : HyperbolicSystem K)
    (B : Boundary) (U : state_type D K) (n : Fin D → K)
    (get_dirichlet_data : Unit → state_type D K) (hn1 : B.no_slip ≠ B.dirichlet)
    (hn2 : B.no_slip ≠ B.slip) :
    water_depth (apply_boundary_conditions sqrt hs B B.no_slip U n get_dirichlet_data) =
        water_depth U ∧
      ∀ k, momentum (apply_boundary_conditions sqrt hs B B.no_slip U n get_dirichlet_data) k =
        0 := by
  have heq : apply_boundary_conditions sqrt hs B B.no_slip U n get_dirichlet_data =
      Fin.cases (U 0) (fun _ => 0) := by
    unfold apply_boundary_conditions
    rw [if_neg hn1, if_neg hn2, if_pos rfl]
  rw [heq]
  exact ⟨rfl, fun k => by simp only [momentum, Fin.cases_succ]⟩

/-- Evaluation of C24 at the one dimensional state of velocity `3`. -/
theorem apply_boundary_conditions_no_slip_witness :
    (boundaryEx.no_slip ≠ boundaryEx.dirichlet ∧ boundaryEx.no_slip ≠ boundaryEx.slip) ∧
      water_depth (apply_boundary_conditions Real.sqrt (hsEx ℝ) boundaryEx
        boundaryEx.no_slip (uFlow ℝ 3) (nOne ℝ) (fun _ => uFlow ℝ 0)) =
          water_depth (uFlow ℝ 3) ∧
      ∀ k, momentum (apply_boundary_conditions Real.sqrt (hsEx ℝ) boundaryEx
        boundaryEx.no_slip (uFlow ℝ 3) (nOne ℝ) (fun _ => uFlow ℝ 0)) k = 0 :=
  ⟨⟨by decide, by decide⟩, apply_boundary_conditions_no_slip Real.sqrt (hsEx ℝ) boundaryEx
    (uFlow ℝ 3) (nOne ℝ) (fun _ => uFlow ℝ 0) (by decide) (by decide)⟩

/-- C25: if `h_tiny > 0` and the depth `h` of `U = (h, m)` is at least `h_tiny`
then `mathematical_entropy(U) = pressure(U) + kinetic_energy(U)
= (1/2) g h² + (1/2) |m|² / h`. -/
theorem mathematical_entropy_formula (hs : HyperbolicSystem K) (U : state_type D K)
    (htiny : 0 < hs.h_tiny_) (hU : hs.h_tiny_ ≤ water_depth U) :
    mathematical_entropy hs U = pressure hs U + kinetic_energy hs U ∧
      mathematical_entropy hs U =
        1 / 2 * hs.gravity_ * water_depth U ^ 2 +
          1 / 2 * norm_square (momentum U) / water_depth U := by
  have hpos : 0 < U 0 := lt_of_lt_of_le htiny hU
  refine ⟨rfl, ?_⟩
  simp only [mathematical_entropy, kinetic_energy_of_le hs U hpos hU, pressure, water_depth]
  ring

/-- Evaluation of C25 at `hsQ` and the state `(2, (1, 0))`. -/
theorem mathematical_entropy_formula_witness :
    (0 < hsQ.h_tiny_ ∧ hsQ.h_tiny_ ≤ water_depth uQ) ∧
      mathematical_entropy hsQ uQ = pressure hsQ uQ + kinetic_energy hsQ uQ ∧
      mathematical_entropy hsQ uQ =
        1 / 2 * hsQ.gravity_ * water_depth uQ ^ 2 +
          1 / 2 * norm_square (momentum uQ) / water_depth uQ :=
  ⟨⟨by norm_num [hsQ], by norm_num [hsQ, uQ, water_depth]⟩,
    mathematical_entropy_formula hsQ uQ (by norm_num [hsQ])
      (by norm_num [hsQ, uQ, water_depth])⟩

/-- C26: for a state `U = (h, m)` in `D` space dimensions, with
`vel = momentum(U) * inverse_water_depth(U)`, component `0` of
`mathematical_entropy_derivative(U)` is `g h - (1/2) |vel|²` and component
`1 + i` is `vel_i`. -/
theorem mathematical_entropy_derivative_formula (hs : HyperbolicSystem K)
    (U : state_type D K) :
    mathematical_entropy_derivative hs U 0 =
        hs.gravity_ * water_depth U -
          1 / 2 * norm_square (fun i => momentum U i * inverse_water_depth hs U) ∧
      ∀ i, mathematical_entropy_derivative hs U i.succ =
        momentum U i * inverse_water_depth hs U :=
  ⟨rfl, fun _ => rfl⟩

/-- C27: for a primitive state `P = (h, v_1, ..., v_D)`,
`from_primitive_state(P)` is `(h, h v_1, ..., h v_D)`. -/
theorem from_primitive_state_formula (P : state_type D K) :
    from_primitive_state P 0 = P 0 ∧
      ∀ i : Fin D, from_primitive_state P i.succ = P 0 * P i.succ := by
  refine ⟨rfl, fun i => ?_⟩
  simp only [from_primitive_state, Fin.cases_succ]
  exact mul_comm _ _

/-- C28: for `dim ≥ dim2` and a state `S` of dimension `dim2`,
`expand_state<dim>(S)` has the components `0 .. dim2` of `S` and every
further component `dim2 + 1 .. dim` equal to `0`; for `dim = dim2` it is `S`. -/
theorem expand_state_formula {D2 : Nat} (D : Nat) (hdim : D2 ≤ D) (S : state_type D2 K) :
    (∀ k : Fin (D2 + 1),
        expand_state D hdim S (Fin.castLE (Nat.succ_le_succ hdim) k) = S k) ∧
      (∀ k : Fin (D + 1), D2 < k.val → expand_state D hdim S k = 0) ∧
      expand_state D2 (le_refl D2) S = S := by
  refine ⟨fun k => ?_, fun k hk => ?_, ?_⟩
  · simp only [expand_state, Fin.coe_castLE, k.isLt, dite_true, Fin.eta]
  · have hnot : ¬ k.val < D2 + 1 := by omega
    simp only [expand_state, dif_neg hnot]
  · funext k
    simp only [expand_state, k.isLt, dite_true, Fin.eta]

/-- Evaluation of C28: the one dimensional state `(2, 1)` expanded to two and
to one space dimensions. -/
theorem expand_state_formula_witness :
    1 ≤ 2 ∧
      expand_state 2 (by decide : 1 ≤ 2) (![2, 1] : state_type 1 ℚ) = ![2, 1, 0] ∧
      expand_state 1 (le_refl 1) (![2, 1] : state_type 1 ℚ) = ![2, 1] :=
  have hall := expand_state_formula 2 (by decide : 1 ≤ 2) (![2, 1] : state_type 1 ℚ)
  ⟨by decide,
    by
      funext k
      fin_cases k
      · exact hall.1 0
      · exact hall.1 1
      · exact hall.2.1 2 (by decide),
    hall.2.2⟩

/-- C30: over the real numbers, if `h_tiny > 0` and the depth `h` of
`U = (h, m)` is greater than `h_tiny`, the map `U ↦ mathematical_entropy(U)` is
differentiable at `U`; its partial derivative with respect to component `k` is
component `k` of `mathematical_entropy_derivative(U)`: `g h - |m|² / (2 h²)`
for the depth and `m_i / h` for the momentum component `i`. -/
theorem mathematical_entropy_derivative_is_gradient (hs : HyperbolicSystem ℝ)
    (U : state_type D ℝ) (htiny : 0 < hs.h_tiny_) (hU : hs.h_tiny_ < water_depth U) :
    DifferentiableAt ℝ (fun V : state_type D ℝ => mathematical_entropy hs V) U ∧
      (∀ k, HasDerivAt (fun t => mathematical_entropy hs (Function.update U k t))
        (mathematical_entropy_derivative hs U k) (U k)) ∧
      (∀ k, fderiv ℝ (fun V : state_type D ℝ => mathematical_entropy hs V) U
        (Pi.single k 1) = mathematical_entropy_derivative hs U k) ∧
      mathematical_entropy_derivative hs U 0 =
        hs.gravity_ * water_depth U - norm_square (momentum U) / (2 * water_depth U ^ 2) ∧
      ∀ i, mathematical_entropy_derivative hs U i.succ = momentum U i / water_depth U := by
  have hU0 : hs.h_tiny_ < U 0 := hU
  have hpos : 0 < U 0 := lt_trans htiny hU0
  have hdiff := differentiableAt_mathematical_entropy hs U htiny hU0
  have hcoord : ∀ k, HasDerivAt (fun t => mathematical_entropy hs (Function.update U k t))
      (mathematical_entropy_derivative hs U k) (U k) := by
    intro k
    refine Fin.cases ?_ (fun i => ?_) k
    · exact hasDerivAt_mathematical_entropy_zero hs U htiny hU0
    · exact hasDerivAt_mathematical_entropy_succ hs U htiny hU0 i
  have hval := mathematical_entropy_derivative_of_le hs U hpos (le_of_lt hU0)
  refine ⟨hdiff, hcoord, fun k => ?_, hval.1, hval.2⟩
  have hF : HasFDerivAt (fun V : state_type D ℝ => mathematical_entropy hs V)
      (fderiv ℝ (fun V : state_type D ℝ => mathematical_entropy hs V) U)
      (Function.update U k (U k)) := by
    rw [Function.update_eq_self]
    exact hdiff.hasFDerivAt
  have hline := hF.comp_hasDerivAt (U k) (hasDerivAt_update U k (U k))
  exact hline.unique (hcoord k)

/-- Evaluation of C30 at `hsEx` over the real numbers and the state
`(2, (1, 0))`. -/
theorem mathematical_entropy_derivative_is_gradient_witness :
    (0 < (hsEx ℝ).h_tiny_ ∧ (hsEx ℝ).h_tiny_ < water_depth (![2, 1, 0] : state_type 2 ℝ)) ∧
      DifferentiableAt ℝ (fun V : state_type 2 ℝ => mathematical_entropy (hsEx ℝ) V)
        ![2, 1, 0] ∧
      HasDerivAt (fun t => mathematical_entropy (hsEx ℝ)
          (Function.update (![2, 1, 0] : state_type 2 ℝ) 0 t))
        (mathematical_entropy_derivative (hsEx ℝ) (![2, 1, 0] : state_type 2 ℝ) 0) 2 :=
  have hall := mathematical_entropy_derivative_is_gradient (hsEx ℝ)
    (![2, 1, 0] : state_type 2 ℝ) (by norm_num [hsEx]) (by norm_num [hsEx, water_depth])
  ⟨⟨by norm_num [hsEx], by norm_num [hsEx, water_depth]⟩, hall.1, hall.2.1 0⟩

/-- C31: for `g > 0`, `gravity_inverse = 1/g`, `h_tiny > 0`, a unit normal `n`
and a component `1` or `2`, let `R1`, `R2` be the invariants that
`prescribe_riemann_characteristic` selects (the one of the component from
`U_bar`, the other from `U`) and `V` its result.  If `R1 ≤ R2` and
`water_depth(V) ≥ h_tiny`, the invariants re-extracted from `V` are `R1` and
`R2`. -/
theorem prescribe_riemann_characteristic_invariants (sqrt : K → K)
    (hs : HyperbolicSystem K) (component : Nat) (U U_bar : state_type D K) (n : Fin D → K)
    (hg : 0 < hs.gravity_) (hginv : hs.gravity_inverse_ = 1 / hs.gravity_)
    (htiny : 0 < hs.h_tiny_) (hn : dot n n = 1)
    (hsqrt0 : ∀ x, 0 ≤ sqrt x) (hsqrt : ∀ x, 0 ≤ x → sqrt x * sqrt x = x)
    (hR : (if component = 1 then
          dot (momentum U_bar) n * inverse_water_depth hs U_bar -
            2 * speed_of_sound sqrt hs U_bar
        else dot (momentum U) n * inverse_water_depth hs U - 2 * speed_of_sound sqrt hs U) ≤
      (if component = 2 then
          dot (momentum U_bar) n * inverse_water_depth hs U_bar +
            2 * speed_of_sound sqrt hs U_bar
        else dot (momentum U) n * inverse_water_depth hs U + 2 * speed_of_sound sqrt hs U))
    (hV : hs.h_tiny_ ≤
      water_depth (prescribe_riemann_characteristic sqrt hs component U U_bar n)) :
    dot (momentum (prescribe_riemann_characteristic sqrt hs component U U_bar n)) n *
          inverse_water_depth hs
            (prescribe_riemann_characteristic sqrt hs component U U_bar n) -
        2 * speed_of_sound sqrt hs
          (prescribe_riemann_characteristic sqrt hs component U U_bar n) =
        (if component = 1 then
          dot (momentum U_bar) n * inverse_water_depth hs U_bar -
            2 * speed_of_sound sqrt hs U_bar
        else dot (momentum U) n * inverse_water_depth hs U -
          2 * speed_of_sound sqrt hs U) ∧
      dot (momentum (prescribe_riemann_characteristic sqrt hs component U U_bar n)) n *
          inverse_water_depth hs
            (prescribe_riemann_characteristic sqrt hs component U U_bar n) +
        2 * speed_of_sound sqrt hs
          (prescribe_riemann_characteristic sqrt hs component U U_bar n) =
        (if component = 2 then
          dot (momentum U_bar) n * inverse_water_depth hs U_bar +
            2 * speed_of_sound sqrt hs U_bar
        else dot (momentum U) n * inverse_water_depth hs U +
          2 * speed_of_sound sqrt hs U) := by
  obtain ⟨hvn, ha⟩ := prescribe_riemann_characteristic_reextract sqrt hs component U U_bar n
    hg hginv htiny hn hsqrt0 hsqrt hV
  rw [abs_of_nonneg (sub_nonneg.2 hR)] at ha
  rw [hvn, ha]
  constructor <;> ring

/-- Evaluation of C31 over the real numbers for component `2`: `U` has
velocity `-1/2`, `U_bar` velocity `1/2`, both depth `100/981` and speed of
sound `1`, so `R1 = -5/2 ≤ R2 = 5/2`, and both are recovered from the result. -/
theorem prescribe_riemann_characteristic_invariants_witness :
    (0 < (hsEx ℝ).gravity_ ∧ (hsEx ℝ).gravity_inverse_ = 1 / (hsEx ℝ).gravity_ ∧
        0 < (hsEx ℝ).h_tiny_ ∧ dot (nOne ℝ) (nOne ℝ) = 1 ∧
        (hsEx ℝ).h_tiny_ ≤ water_depth (prescribe_riemann_characteristic Real.sqrt (hsEx ℝ) 2
          (uFlow ℝ (-1 / 2)) (uFlow ℝ (1 / 2)) (nOne ℝ))) ∧
      dot (momentum (prescribe_riemann_characteristic Real.sqrt (hsEx ℝ) 2
            (uFlow ℝ (-1 / 2)) (uFlow ℝ (1 / 2)) (nOne ℝ))) (nOne ℝ) *
          inverse_water_depth (hsEx ℝ) (prescribe_riemann_characteristic Real.sqrt (hsEx ℝ) 2
            (uFlow ℝ (-1 / 2)) (uFlow ℝ (1 / 2)) (nOne ℝ)) -
        2 * speed_of_sound Real.sqrt (hsEx ℝ) (prescribe_riemann_characteristic Real.sqrt
          (hsEx ℝ) 2 (uFlow ℝ (-1 / 2)) (uFlow ℝ (1 / 2)) (nOne ℝ)) = -5 / 2 ∧
      dot (momentum (prescribe_riemann_characteristic Real.sqrt (hsEx ℝ) 2
            (uFlow ℝ (-1 / 2)) (uFlow ℝ (1 / 2)) (nOne ℝ))) (nOne ℝ) *
          inverse_water_depth (hsEx ℝ) (prescribe_riemann_characteristic Real.sqrt (hsEx ℝ) 2
            (uFlow ℝ (-1 / 2)) (uFlow ℝ (1 / 2)) (nOne ℝ)) +
        2 * speed_of_sound Real.sqrt (hsEx ℝ) (prescribe_riemann_characteristic Real.sqrt
          (hsEx ℝ) 2 (uFlow ℝ (-1 / 2)) (uFlow ℝ (1 / 2)) (nOne ℝ)) = 5 / 2 := by
  have hsqrt : ∀ x : ℝ, 0 ≤ x → Real.sqrt x * Real.sqrt x = x :=
    fun _ hx => Real.mul_self_sqrt hx
  have hV : (hsEx ℝ).h_tiny_ ≤ water_depth (prescribe_riemann_characteristic Real.sqrt
      (hsEx ℝ) 2 (uFlow ℝ (-1 / 2)) (uFlow ℝ (1 / 2)) (nOne ℝ)) := by
    show (hsEx ℝ).h_tiny_ ≤ vPrescribed ℝ Real.sqrt (-1 / 2) (1 / 2) 0
    rw [vPrescribed_depth Real.sqrt Real.sqrt_nonneg hsqrt]
    norm_num [hsEx]
  have hall := prescribe_riemann_characteristic_invariants Real.sqrt (hsEx ℝ) 2
    (uFlow ℝ (-1 / 2)) (uFlow ℝ (1 / 2)) (nOne ℝ) (by norm_num [hsEx]) (by norm_num [hsEx])
    (by norm_num [hsEx]) (by simp [dot, nOne]) Real.sqrt_nonneg hsqrt
    (by
      simp only [normal_velocity_uFlow, speed_of_sound_uFlow Real.sqrt Real.sqrt_nonneg hsqrt,
        if_true, show ¬ (2 : ℕ) = 1 by decide, if_false]
      norm_num)
    hV
  simp only [normal_velocity_uFlow, speed_of_sound_uFlow Real.sqrt Real.sqrt_nonneg hsqrt,
    if_true, show ¬ (2 : ℕ) = 1 by decide, if_false] at hall
  refine ⟨⟨by norm_num [hsEx], by norm_num [hsEx], by norm_num [hsEx],
    by simp [dot, nOne], hV⟩, ?_, ?_⟩
  · rw [hall.1]
    norm_num
  · rw [hall.2]
    norm_num

/-- C32: for a unit normal `n` (`n·n = 1`) the state `V` returned by
`apply_boundary_conditions` for the id `slip` (distinct from `dirichlet`) has
no normal momentum: `momentum(V)·n = 0`. -/
theorem apply_boundary_conditions_slip_normal_momentum (sqrt : K → K)
    (hs : HyperbolicSystem K) (B : Boundary) (U : state_type D K) (n : Fin D → K)
    (get_dirichlet_data : Unit → state_type D K) (hs1 : B.slip ≠ B.dirichlet)
    (hn : dot n n = 1) :
    dot (momentum (apply_boundary_conditions sqrt hs B B.slip U n get_dirichlet_data)) n =
      0 := by
  have hm : momentum (apply_boundary_conditions sqrt hs B B.slip U n get_dirichlet_data) =
      fun k => momentum U k - 1 * dot (momentum U) n * n k := by
    rw [apply_boundary_conditions_slip_eq sqrt hs B U n get_dirichlet_data hs1]
    rfl
  rw [hm, dot_sub_mul, hn]
  ring

/-- Evaluation of C32 at the one dimensional state of velocity `3` with the
unit normal `(1)`. -/
theorem apply_boundary_conditions_slip_normal_momentum_witness :
    (boundaryEx.slip ≠ boundaryEx.dirichlet ∧ dot (nOne ℝ) (nOne ℝ) = 1) ∧
      dot (momentum (apply_boundary_conditions Real.sqrt (hsEx ℝ) boundaryEx boundaryEx.slip
        (uFlow ℝ 3) (nOne ℝ) (fun _ => uFlow ℝ 0))) (nOne ℝ) = 0 :=
  ⟨⟨by decide, by simp [dot, nOne]⟩,
    apply_boundary_conditions_slip_normal_momentum Real.sqrt (hsEx ℝ) boundaryEx
      (uFlow ℝ 3) (nOne ℝ) (fun _ => uFlow ℝ 0) (by decide) (by simp [dot, nOne])⟩

/-- C33: for `g > 0`, `gravity_inverse = 1/g`, `h_tiny > 0`, a state `U` of
depth `h ≥ h_tiny`, any normal `n` (unit or not) and component `1` or `2`,
`prescribe_riemann_characteristic(U, U, n) = U`. -/
theorem prescribe_riemann_characteristic_self (sqrt : K → K) (hs : HyperbolicSystem K)
    (component : Nat) (U : state_type D K) (n : Fin D → K)
    (hg : 0 < hs.gravity_) (hginv : hs.gravity_inverse_ = 1 / hs.gravity_)
    (htiny : 0 < hs.h_tiny_) (hU : hs.h_tiny_ ≤ water_depth U)
    (hsqrt : ∀ x, 0 ≤ x → sqrt x * sqrt x = x) :
    prescribe_riemann_characteristic sqrt hs component U U n = U := by
  have hpos : 0 < U 0 := lt_of_lt_of_le htiny hU
  have hne : U 0 ≠ 0 := ne_of_gt hpos
  have hgne : hs.gravity_ ≠ 0 := ne_of_gt hg
  have hinv := inverse_water_depth_eq_inv hs U hpos hU
  have ha : speed_of_sound sqrt hs U * speed_of_sound sqrt hs U = hs.gravity_ * U 0 :=
    hsqrt _ (mul_nonneg hg.le hpos.le)
  have hdepth : hs.gravity_inverse_ *
      ((dot (momentum U) n * inverse_water_depth hs U + 2 * speed_of_sound sqrt hs U -
        (dot (momentum U) n * inverse_water_depth hs U - 2 * speed_of_sound sqrt hs U)) / 4) ^ 2 =
      U 0 := by
    have hsq : ((dot (momentum U) n * inverse_water_depth hs U + 2 * speed_of_sound sqrt hs U -
        (dot (momentum U) n * inverse_water_depth hs U - 2 * speed_of_sound sqrt hs U)) / 4) ^ 2 =
        hs.gravity_ * U 0 := by
      rw [← ha]
      ring
    rw [hsq, hginv]
    field_simp
  funext k
  refine Fin.cases ?_ (fun d => ?_) k
  · simp only [prescribe_riemann_characteristic, Fin.cases_zero, ite_self, pow]
    exact hdepth
  · simp only [prescribe_riemann_characteristic, Fin.cases_succ, ite_self, pow]
    rw [hdepth, hinv]
    simp only [momentum]
    field_simp
    ring

/-- Evaluation of C33 over the real numbers at the state of velocity `3` and
the normal `(1)`, for component `1`. -/
theorem prescribe_riemann_characteristic_self_witness :
    (0 < (hsEx ℝ).gravity_ ∧ (hsEx ℝ).gravity_inverse_ = 1 / (hsEx ℝ).gravity_ ∧
        0 < (hsEx ℝ).h_tiny_ ∧ (hsEx ℝ).h_tiny_ ≤ water_depth (uFlow ℝ 3) ∧
        ∀ x : ℝ, 0 ≤ x → Real.sqrt x * Real.sqrt x = x) ∧
      prescribe_riemann_characteristic Real.sqrt (hsEx ℝ) 1 (uFlow ℝ 3) (uFlow ℝ 3) (nOne ℝ) =
        uFlow ℝ 3 :=
  ⟨⟨by norm_num [hsEx], by norm_num [hsEx], by norm_num [hsEx],
      by norm_num [hsEx, water_depth, uFlow], fun _ hx => Real.mul_self_sqrt hx⟩,
    prescribe_riemann_characteristic_self Real.sqrt (hsEx ℝ) 1 (uFlow ℝ 3) (nOne ℝ)
      (by norm_num [hsEx]) (by norm_num [hsEx]) (by norm_num [hsEx])
      (by norm_num [hsEx, water_depth, uFlow]) (fun _ hx => Real.mul_self_sqrt hx)⟩

/-- C34: on a flat bed, for tuples `(U_i, Z)`, `(U_j, Z)` with the same
bathymetry value and depths `h_i ≥ h_tiny`, `h_j ≥ h_tiny` (`h_tiny > 0`), the
low-order flux equals the high-order flux. -/
theorem flux_eq_high_order_flux_flat_bed (hs : HyperbolicSystem K)
    (U_i U_j : state_type D K) (Z : K) (htiny : 0 < hs.h_tiny_)
    (hU_i : hs.h_tiny_ ≤ water_depth U_i) (hU_j : hs.h_tiny_ ≤ water_depth U_j) :
    flux hs (U_i, Z) (U_j, Z) = high_order_flux hs (U_i, Z) (U_j, Z) := by
  show add (f hs (star_state hs U_i Z Z)) (f hs (star_state hs U_j Z Z)) =
    add (f hs U_i) (f hs U_j)
  rw [star_state_flat_bed_of_le hs U_i Z htiny hU_i,
    star_state_flat_bed_of_le hs U_j Z htiny hU_j]

/-- Evaluation of C34 at `hsQ` for the states `(2, (1, 0))` and `(1, (0, 0))`
over the flat bed at level `3`. -/
theorem flux_eq_high_order_flux_flat_bed_witness :
    (0 < hsQ.h_tiny_ ∧ hsQ.h_tiny_ ≤ water_depth uQ ∧ hsQ.h_tiny_ ≤ water_depth uLakeJ) ∧
      flux hsQ (uQ, 3) (uLakeJ, 3) = high_order_flux hsQ (uQ, 3) (uLakeJ, 3) :=
  ⟨⟨by norm_num [hsQ], by norm_num [hsQ, uQ, water_depth],
      by norm_num [hsQ, uLakeJ, water_depth]⟩,
    flux_eq_high_order_flux_flat_bed hsQ uQ uLakeJ 3 (by norm_num [hsQ])
      (by norm_num [hsQ, uQ, water_depth]) (by norm_num [hsQ, uLakeJ, water_depth])⟩

/-- C35: if `h_tiny > 0` and the depth `h` of `U` is nonnegative then
`0 ≤ inverse_water_depth(U) ≤ 1 / h_tiny`; hence every component of the
regularised velocity `momentum(U) * inverse_water_depth(U)` is bounded in
absolute value by `|m_i| / h_tiny`, and its squared norm by `|m|² / h_tiny²`. -/
theorem inverse_water_depth_bounded (hs : HyperbolicSystem K) (U : state_type D K)
    (htiny : 0 < hs.h_tiny_) (hU : 0 ≤ water_depth U) :
    0 ≤ inverse_water_depth hs U ∧ inverse_water_depth hs U ≤ 1 / hs.h_tiny_ ∧
      (∀ i, |momentum U i * inverse_water_depth hs U| ≤ |momentum U i| / hs.h_tiny_) ∧
      norm_square (fun i => momentum U i * inverse_water_depth hs U) ≤
        norm_square (momentum U) / hs.h_tiny_ ^ 2 := by
  have h0 : 0 ≤ inverse_water_depth hs U := inverse_water_depth_nonneg hs U hU
  have h1 : inverse_water_depth hs U ≤ 1 / hs.h_tiny_ := inverse_water_depth_le hs U htiny hU
  refine ⟨h0, h1, fun i => ?_, ?_⟩
  · rw [abs_mul, abs_of_nonneg h0, div_eq_mul_one_div]
    exact mul_le_mul_of_nonneg_left h1 (abs_nonneg _)
  · rw [norm_square_mul_right, div_eq_mul_one_div]
    refine mul_le_mul_of_nonneg_left ?_ (norm_square_nonneg _)
    have hsq : inverse_water_depth hs U * inverse_water_depth hs U ≤
        1 / hs.h_tiny_ * (1 / hs.h_tiny_) := mul_le_mul h1 h1 h0 (le_trans h0 h1)
    calc inverse_water_depth hs U * inverse_water_depth hs U
        ≤ 1 / hs.h_tiny_ * (1 / hs.h_tiny_) := hsq
      _ = 1 / hs.h_tiny_ ^ 2 := by
        field_simp
        ring

/-- Evaluation of C35 at `hsQ` and the dry-band state `uDry`, where the
regularised inverse is `80 ≤ 100`. -/
theorem inverse_water_depth_bounded_witness :
    (0 < hsQ.h_tiny_ ∧ 0 ≤ water_depth uDry) ∧
      0 ≤ inverse_water_depth hsQ uDry ∧ inverse_water_depth hsQ uDry ≤ 1 / hsQ.h_tiny_ :=
  have hall := inverse_water_depth_bounded hsQ uDry (by norm_num [hsQ])
    (by norm_num [uDry, water_depth])
  ⟨⟨by norm_num [hsQ], by norm_num [uDry, water_depth]⟩, hall.1, hall.2.1⟩

/-- C36: for a boundary id that is none of `dirichlet`, `slip`, `no_slip`,
`dynamic`, `apply_boundary_conditions` returns `U` unchanged, whatever the
callback is. -/
theorem apply_boundary_conditions_other (sqrt : K → K) (hs : HyperbolicSystem K)
    (B : Boundary) (id : Nat) (U : state_type D K) (n : Fin D → K)
    (get_dirichlet_data : Unit → state_type D K)
    (h1 : id ≠ B.dirichlet) (h2 : id ≠ B.slip) (h3 : id ≠ B.no_slip) (h4 : id ≠ B.dynamic) :
    apply_boundary_conditions sqrt hs B id U n get_dirichlet_data = U ∧
      ∀ g : Unit → state_type D K,
        apply_boundary_conditions sqrt hs B id U n g =
          apply_boundary_conditions sqrt hs B id U n get_dirichlet_data := by
  have hall : ∀ g : Unit → state_type D K,
      apply_boundary_conditions sqrt hs B id U n g = U := by
    intro g
    unfold apply_boundary_conditions
    rw [if_neg h1, if_neg h2, if_neg h3, if_neg h4]
  exact ⟨hall get_dirichlet_data, fun g => (hall g).trans (hall get_dirichlet_data).symm⟩

/-- Evaluation of C36 for the boundary id `0`, which is none of the four ids of
`boundaryEx`. -/
theorem apply_boundary_conditions_other_witness :
    (0 ≠ boundaryEx.dirichlet ∧ 0 ≠ boundaryEx.slip ∧ 0 ≠ boundaryEx.no_slip ∧
        0 ≠ boundaryEx.dynamic) ∧
      apply_boundary_conditions Real.sqrt (hsEx ℝ) boundaryEx 0 (uFlow ℝ 3) (nOne ℝ)
        (fun _ => uFlow ℝ 0) = uFlow ℝ 3 :=
  ⟨⟨by decide, by decide, by decide, by decide⟩,
    (apply_boundary_conditions_other Real.sqrt (hsEx ℝ) boundaryEx 0 (uFlow ℝ 3) (nOne ℝ)
      (fun _ => uFlow ℝ 0) (by decide) (by decide) (by decide) (by decide)).1⟩

/-- C37: if `h_tiny > 0` and component `0` of the tuple `X` is at least
`h_tiny`, then `to_primitive_state(from_primitive_state(X)) = X` and
`from_primitive_state(to_primitive_state(X)) = X`. -/
theorem primitive_state_round_trip (hs : HyperbolicSystem K) (X : state_type D K)
    (htiny : 0 < hs.h_tiny_) (hX : hs.h_tiny_ ≤ X 0) :
    to_primitive_state hs (from_primitive_state X) = X ∧
      from_primitive_state (to_primitive_state hs X) = X := by
  have hpos : 0 < X 0 := lt_of_lt_of_le htiny hX
  have hne : X 0 ≠ 0 := ne_of_gt hpos
  have hinv := inverse_water_depth_eq_inv hs X hpos hX
  have hinv_from : inverse_water_depth hs (from_primitive_state X) = (X 0)⁻¹ :=
    inverse_water_depth_eq_inv hs (from_primitive_state X) hpos hX
  constructor
  · funext k
    refine Fin.cases rfl (fun i => ?_) k
    simp only [to_primitive_state, Fin.cases_succ, hinv_from]
    simp only [from_primitive_state, Fin.cases_succ]
    exact mul_inv_cancel_right₀ hne _
  · funext k
    refine Fin.cases rfl (fun i => ?_) k
    simp only [from_primitive_state, Fin.cases_succ]
    simp only [to_primitive_state, Fin.cases_succ, Fin.cases_zero, hinv]
    exact inv_mul_cancel_right₀ hne _

/-- Evaluation of C37 at `hsQ` and the tuple `(2, 1, 0)`. -/
theorem primitive_state_round_trip_witness :
    (0 < hsQ.h_tiny_ ∧ hsQ.h_tiny_ ≤ uQ 0) ∧
      to_primitive_state hsQ (from_primitive_state uQ) = uQ ∧
      from_primitive_state (to_primitive_state hsQ uQ) = uQ :=
  ⟨⟨by norm_num [hsQ], by norm_num [hsQ, uQ]⟩,
    primitive_state_round_trip hsQ uQ (by norm_num [hsQ]) (by norm_num [hsQ, uQ])⟩

end Claims

end ryujin
